import Mathlib

/-!
Verification of the db-tycoon utilities: a shallow embedding of the two
Python scripts `replace_source_func_with_ref.py` and
`dbt_generate_source_models.py`.

Text is modelled as `List Char`.  The Python `re` patterns used by the
scripts are flat sequences of literals, single-character classes and
greedy quantifiers; they are embedded as item lists interpreted by a
backtracking matcher (`matchSeq`) that tries greedy alternatives first,
exactly as the Python engine does for these patterns.  `re.finditer` and
`re.findall` are embedded as a left-to-right non-overlapping scan
(`findIterL`), and `str.replace` as `pyReplace`.  External effects
(the file system, the dbt subprocess) are modelled by explicit data:
file lists, a directory tree, and a stdout oracle passed as a function.
-/

namespace DbT

/-- Left brace character, written with an escape. -/
def lbr : Char := '\x7b'

/-- Right brace character, written with an escape. -/
def rbr : Char := '\x7d'

/-- Python regex class `\s` (ASCII part), also the set stripped by `str.strip`. -/
def isPySpace (c : Char) : Bool :=
  c = ' ' || c = '\t' || c = '\n' || c = '\r' || c = '\x0b' || c = '\x0c'

/-- A single or double quote character. -/
def isQuote (c : Char) : Bool := c = '\'' || c = '"'

/-- Python regex class excluding both quote characters. -/
def notQuote (c : Char) : Bool := !(isQuote c)

/-- One item of a flat regex: a literal, a single-character class,
an optional class, a greedy star over a class, a capturing greedy plus
over a class, or a capturing literal. -/
inductive RItem where
  | lit : List Char → RItem
  | one : (Char → Bool) → RItem
  | opt : (Char → Bool) → RItem
  | star : (Char → Bool) → RItem
  | grp : (Char → Bool) → RItem
  | grpLit : List Char → RItem

/-- Candidate splits for a greedy `p*`, longest prefix first. -/
def starSplits (p : Char → Bool) (s : List Char) : List (List Char × List Char) :=
  let t := s.takeWhile p
  let d := s.dropWhile p
  ((List.range (t.length + 1)).reverse).map (fun k => (t.take k, t.drop k ++ d))

/-- Candidate splits for a greedy `p+`, longest prefix first (never empty). -/
def plusSplits (p : Char → Bool) (s : List Char) : List (List Char × List Char) :=
  let t := s.takeWhile p
  let d := s.dropWhile p
  ((List.range t.length).reverse).map (fun k => (t.take (k + 1), t.drop (k + 1) ++ d))

/-- First successful alternative, in order. -/
def firstSome : List α → (α → Option β) → Option β
  | [], _ => none
  | a :: as, f =>
    match f a with
    | some b => some b
    | none => firstSome as f

/-- Backtracking matcher for a flat regex anchored at the start of `s`.
Returns the captured groups in order and the remaining input.
Greedy alternatives are tried first, mirroring the Python engine. -/
def matchSeq : List RItem → List Char → Option (List (List Char) × List Char)
  | [], s => some ([], s)
  | .lit l :: it, s =>
    if l.isPrefixOf s then matchSeq it (s.drop l.length) else none
  | .one p :: it, s =>
    match s with
    | [] => none
    | c :: s' => if p c then matchSeq it s' else none
  | .opt p :: it, s =>
    match s with
    | [] => matchSeq it []
    | c :: s' =>
      if p c then
        match matchSeq it s' with
        | some v => some v
        | none => matchSeq it (c :: s')
      else matchSeq it (c :: s')
  | .star p :: it, s =>
    firstSome (starSplits p s) (fun pr => matchSeq it pr.2)
  | .grp p :: it, s =>
    firstSome (plusSplits p s)
      (fun pr => (matchSeq it pr.2).map (fun cr => (pr.1 :: cr.1, cr.2)))
  | .grpLit l :: it, s =>
    if l.isPrefixOf s then
      (matchSeq it (s.drop l.length)).map (fun cr => (l :: cr.1, cr.2))
    else none

/-- `re.search` as a Boolean: does the pattern match at some position? -/
def searchAux (items : List RItem) : List Char → Bool
  | [] => (matchSeq items []).isSome
  | c :: s' => (matchSeq items (c :: s')).isSome || searchAux items s'

/-- Fueled left-to-right non-overlapping scan, as `re.finditer`:
at each position try the pattern; on success emit the whole match and
its groups and resume after it, otherwise advance one character. -/
def findIterAux (items : List RItem) : Nat → List Char → List (List Char × List (List Char))
  | 0, _ => []
  | fuel + 1, s =>
    match matchSeq items s with
    | some (caps, r) =>
      if r.length < s.length then
        (s.take (s.length - r.length), caps) :: findIterAux items fuel r
      else []
    | none =>
      match s with
      | [] => []
      | _ :: s' => findIterAux items fuel s'

/-- `re.finditer` over a whole string. -/
def findIterL (items : List RItem) (s : List Char) : List (List Char × List (List Char)) :=
  findIterAux items s.length s

/-- Python `str.replace`: replace every non-overlapping occurrence of
`old` (scanning left to right) by `new`; fueled by the input length.
The scripts never call it with an empty `old`, which is treated as a no-op. -/
def replaceAux (old new : List Char) : Nat → List Char → List Char
  | 0, s => s
  | fuel + 1, s =>
    match s with
    | [] => []
    | c :: s' =>
      if !old.isEmpty && old.isPrefixOf (c :: s') then
        new ++ replaceAux old new fuel ((c :: s').drop old.length)
      else
        c :: replaceAux old new fuel s'

/-- Python `str.replace` over a whole string. -/
def pyReplace (s old new : List Char) : List Char :=
  replaceAux old new s.length s

/-! ### The Rewriter (`replace_source_func_with_ref.py`) -/

/-- The pattern of `find_files_with_source_refs`:
two braces, optional whitespace, the word source, optional whitespace,
an opening parenthesis. -/
def findItems : List RItem :=
  [.lit [lbr, lbr], .star isPySpace, .lit ['s', 'o', 'u', 'r', 'c', 'e'],
   .star isPySpace, .lit ['(']]

/-- The full rewrite pattern of `replace_sources_with_refs`:
a double-brace template call of source with two leniently quoted
arguments, arbitrary whitespace permitted (newlines included, since
the whitespace class contains them). -/
def rwItems : List RItem :=
  [.lit [lbr, lbr], .star isPySpace, .lit ['s', 'o', 'u', 'r', 'c', 'e'],
   .star isPySpace, .lit ['('],
   .star isPySpace, .opt (· = '"'), .opt (· = '\''), .grp notQuote,
   .opt (· = '"'), .opt (· = '\''), .star isPySpace, .lit [','], .star isPySpace,
   .opt (· = '"'), .opt (· = '\''), .grp notQuote,
   .opt (· = '"'), .opt (· = '\''), .star isPySpace, .lit [')'],
   .star isPySpace, .lit [rbr, rbr]]

/-- The replacement text built for a match: a double-brace ref call of
the model named from the two captured arguments. -/
def newRef (source_name table_name : List Char) : List Char :=
  [lbr, lbr] ++ (" ref('source_".data) ++ source_name ++ ("__".data) ++ table_name
    ++ ("') ".data) ++ [rbr, rbr]

/-- The matches of the rewrite pattern in a file, as
(whole match, first group, second group).  The pattern always yields
exactly two groups, so the fallback branch is unreachable. -/
def rewriteMatches (content : List Char) : List (List Char × List Char × List Char) :=
  (findIterL rwItems content).filterMap
    (fun m =>
      match m.2 with
      | [a, b] => some (m.1, a, b)
      | _ => none)

/-- `replace_sources_with_refs`, at the level of one file content:
the matches are computed on the original content, then each whole-match
text is globally replaced in the evolving content by its ref text. -/
def replace_sources_with_refs (content : List Char) : List Char :=
  (rewriteMatches content).foldl
    (fun acc m => pyReplace acc m.1 (newRef m.2.1 m.2.2)) content

/-- Does a file content contain the search pattern of
`find_files_with_source_refs`? -/
def hasSourceRef (content : List Char) : Bool :=
  searchAux findItems content

/-- `find_files_with_source_refs` over an explicit list of
(path, content) files: keep the SQL files whose content matches. -/
def find_files_with_source_refs (files : List (String × List Char)) :
    List (String × List Char) :=
  files.filter (fun f => ((".sql").data).isSuffixOf f.1.data && hasSourceRef f.2)

/-- The main loop of the Rewriter script: the files written back, with
their new contents.  Only files selected by the search are processed. -/
def rewriterRun (files : List (String × List Char)) : List (String × List Char) :=
  (find_files_with_source_refs files).map
    (fun f => (f.1, replace_sources_with_refs f.2))

/-- A canonical single-quoted templated source occurrence:
two braces, a space, the source call with single-quoted arguments
`a` and `b`, a space, two braces.  Used to state the claims about
occurrences inside a file. -/
def srcExpr (a b : List Char) : List Char :=
  [lbr, lbr, ' ', 's', 'o', 'u', 'r', 'c', 'e', '(', '\''] ++ a ++
    ['\'', ',', '\''] ++ b ++ ['\'', ')', ' ', rbr, rbr]

/-! ### The Reference Scanner (`dbt_generate_source_models.py`) -/

/-- The scan pattern of `get_sources_used_with_source_func` for a given
source name: the word source, optional whitespace, parenthesis, a
required opening quote, the escaped source name as a captured literal,
an optional closing quote, a comma, a required opening quote, a
captured unquoted run, an optional closing quote, a closing
parenthesis; whitespace permitted around the punctuation. -/
def scanItems (source_name : List Char) : List RItem :=
  [.lit ['s', 'o', 'u', 'r', 'c', 'e'], .star isPySpace, .lit ['('], .star isPySpace,
   .one isQuote, .grpLit source_name, .opt isQuote, .star isPySpace,
   .lit [','], .star isPySpace, .one isQuote, .grp notQuote,
   .opt isQuote, .star isPySpace, .lit [')']]

/-- `re.findall` of the scan pattern: the list of (group1, group2)
tuples of the non-overlapping matches. -/
def scanPairs (source_name content : List Char) : List (List Char × List Char) :=
  (findIterL (scanItems source_name) content).filterMap
    (fun m =>
      match m.2 with
      | [a, b] => some (a, b)
      | _ => none)

/-- The per-file body of `get_sources_used_with_source_func`: the table
names whose match tuple has first group equal to the target name. -/
def usedTables (source_name content : List Char) : List (List Char) :=
  (scanPairs source_name content).filterMap
    (fun ab => if ab.1 = source_name then some ab.2 else none)

/-- A source call in the scanner's lenient shape: abstract whitespace
runs `w1 .. w5` around the punctuation and abstract quote characters
`q1 .. q4` around the two arguments `n` and `t`, followed by the rest
`q` of the file.  Used to state the claims about scanner matches. -/
def srcCall (w1 w2 : List Char) (q1 : Char) (n : List Char) (q2 : Char)
    (w3 w4 : List Char) (q3 : Char) (t : List Char) (q4 : Char)
    (w5 q : List Char) : List Char :=
  's' :: 'o' :: 'u' :: 'r' :: 'c' :: 'e' ::
    (w1 ++ '(' :: (w2 ++ q1 :: (n ++ q2 :: (w3 ++ ',' :: (w4 ++ q3 ::
      (t ++ q4 :: (w5 ++ ')' :: q)))))))

/-- A canonical single-quoted source call without template braces,
followed by the rest `q` of the file. -/
def srcCallPlain (n t q : List Char) : List Char :=
  's' :: 'o' :: 'u' :: 'r' :: 'c' :: 'e' :: '(' :: '\'' ::
    (n ++ '\'' :: ',' :: '\'' :: (t ++ '\'' :: ')' :: q))

/-- The used-sources index over an explicit list of (path, content)
files: the graph of the defaultdict built by the scanner, as
(table name, file path) pairs. -/
def usedSourcesIndex (source_name : List Char)
    (files : List (List String × List Char)) : List (List Char × List String) :=
  files.flatMap (fun f => (usedTables source_name f.2).map (fun t => (t, f.1)))

/-- A directory tree: files (name, content) and named subdirectories. -/
inductive FTree where
  | node : List (String × List Char) → List (String × FTree) → FTree

/-- The files chosen by the walk of `get_sources_used_with_source_func`:
SQL files of the tree, with the subdirectory named sources removed from
the traversal at every level, paths given as component lists.  Fueled by
the tree depth; fuel zero yields nothing. -/
def walkCollect : Nat → List String → FTree → List (List String × List Char)
  | 0, _, _ => []
  | fuel + 1, pref, .node files dirs =>
    (files.filterMap
      (fun f => if ((".sql").data).isSuffixOf f.1.data then some (pref ++ [f.1], f.2)
                else none))
    ++ (dirs.filter (fun d => d.1 ≠ "sources")).flatMap
        (fun d => walkCollect fuel (pref ++ [d.1]) d.2)

/-- `get_sources_used_with_source_func` over a directory tree: the graph
of the defaultdict, as (table name, file path) pairs. -/
def get_sources_used_with_source_func (fuel : Nat) (tree : FTree)
    (source_name : List Char) : List (List Char × List String) :=
  usedSourcesIndex source_name (walkCollect fuel [] tree)

/-! ### The Staging SQL Generator and the two pipelines -/

/-- The marker token looked up in the dbt output. -/
def marker : List Char := "with source".data

/-- Python `str.find` for a needle, returning the first index if any. -/
def findSub (needle : List Char) : List Char → Option Nat
  | [] => if needle.isPrefixOf [] then some 0 else none
  | c :: s' =>
    if needle.isPrefixOf (c :: s') then some 0
    else (findSub needle s').map (· + 1)

/-- Python `str.strip`: drop leading and trailing whitespace. -/
def pyStrip (s : List Char) : List Char :=
  (((s.dropWhile isPySpace).reverse).dropWhile isPySpace).reverse

/-- `build_sql_query`, as a function of the captured stdout of the dbt
command: locate the first occurrence of the marker and return the
stripped substring from it to the end, or nothing if it is absent
(in which case the script logs a warning naming the table). -/
def build_sql_query (stdout : List Char) : Option (List Char) :=
  match findSub marker stdout with
  | some i => some (pyStrip (stdout.drop i))
  | none => none

/-- The output file name used by `generate_sql_files_from_used_sources`. -/
def fileNameUsed (source_name table_name : List Char) : List Char :=
  ("source_".data) ++ source_name ++ ("__".data) ++ table_name ++ (".sql".data)

/-- The output file name used by `generate_source_models_from_yml`. -/
def fileNameYml (source_name table_name : List Char) : List Char :=
  ("source_".data) ++ source_name ++ ("__".data) ++ table_name ++ (".sql".data)

/-- The loop of `generate_sql_files_from_used_sources`, with the dbt
stdout for each table supplied by the oracle `gen`.  Returns the files
written (name, content) in order, and the tables for which a warning
was logged because the marker was absent. -/
def generate_sql_files_from_used_sources (gen : List Char → List Char)
    (source_name : List Char) (tables : List (List Char)) :
    List (List Char × List Char) × List (List Char) :=
  tables.foldl
    (fun acc t =>
      match build_sql_query (gen t) with
      | some sql => (acc.1 ++ [(fileNameUsed source_name t, sql)], acc.2)
      | none => (acc.1, acc.2 ++ [t]))
    ([], [])

/-- A table entry of the YAML definition document. -/
structure YTable where
  name : List Char

/-- A source entry of the YAML definition document. -/
structure YSource where
  name : List Char
  tables : List YTable

/-- The YAML definition document: its list of sources. -/
structure YDoc where
  sources : List YSource

/-- The enumeration performed by `generate_source_models_from_yml`:
for every source entry whose name equals the requested one, its table
names in declared order. -/
def ymlTables (doc : YDoc) (source_name : List Char) : List (List Char) :=
  doc.sources.foldl
    (fun acc src =>
      if src.name = source_name then acc ++ src.tables.map (·.name) else acc)
    []

/-- `generate_source_models_from_yml`, with the dbt stdout supplied by
the oracle `gen`: for every enumerated table, the generated file. -/
def generate_source_models_from_yml (gen : List Char → List Char)
    (doc : YDoc) (source_name : List Char) : List (List Char × List Char) :=
  (ymlTables doc source_name).foldl
    (fun acc t =>
      match build_sql_query (gen t) with
      | some sql => acc ++ [(fileNameYml source_name t, sql)]
      | none => acc)
    []

/-! ### Step lemmas for the matcher -/

theorem lit_step (l : List Char) (it : List RItem) (s : List Char) :
    matchSeq (.lit l :: it) (l ++ s) = matchSeq it s := by
  simp [matchSeq, List.drop_left]

theorem lit_fail (l : List Char) (it : List RItem) (s : List Char) (h : ¬ l <+: s) :
    matchSeq (.lit l :: it) s = none := by
  simp [matchSeq, h]

theorem cons_not_prefix_cons (c d : Char) (l s : List Char) (h : c ≠ d) :
    ¬ (c :: l) <+: (d :: s) := by
  rintro ⟨k, hk⟩
  exact h (by injection hk)

theorem lit_head_fail (c d : Char) (l : List Char) (it : List RItem) (s : List Char)
    (h : c ≠ d) : matchSeq (.lit (c :: l) :: it) (d :: s) = none :=
  lit_fail _ _ _ (cons_not_prefix_cons c d l s h)

theorem lit_nil_fail (c : Char) (l : List Char) (it : List RItem) :
    matchSeq (.lit (c :: l) :: it) [] = none := by
  simp [matchSeq, List.isPrefixOf]

theorem one_step (p : Char → Bool) (it : List RItem) (c : Char) (s : List Char)
    (h : p c = true) : matchSeq (.one p :: it) (c :: s) = matchSeq it s := by
  simp [matchSeq, h]

theorem opt_skip (p : Char → Bool) (it : List RItem) (c : Char) (s : List Char)
    (h : p c = false) : matchSeq (.opt p :: it) (c :: s) = matchSeq it (c :: s) := by
  simp [matchSeq, h]

theorem opt_take (p : Char → Bool) (it : List RItem) (c : Char) (s : List Char)
    (v : List (List Char) × List Char) (h : p c = true)
    (hv : matchSeq it s = some v) : matchSeq (.opt p :: it) (c :: s) = some v := by
  simp [matchSeq, h, hv]

theorem takeWhile_append_cons (p : Char → Bool) (w : List Char) (c : Char) (r : List Char)
    (hw : ∀ x ∈ w, p x = true) (hc : p c = false) :
    (w ++ c :: r).takeWhile p = w := by
  induction w with
  | nil => simp [List.takeWhile_cons, hc]
  | cons a w ih =>
    simp only [List.cons_append, List.takeWhile_cons, hw a (List.mem_cons_self a w)]
    exact congrArg (a :: ·) (ih (fun x hx => hw x (List.mem_cons_of_mem a hx)))

theorem dropWhile_append_cons (p : Char → Bool) (w : List Char) (c : Char) (r : List Char)
    (hw : ∀ x ∈ w, p x = true) (hc : p c = false) :
    (w ++ c :: r).dropWhile p = c :: r := by
  induction w with
  | nil => simp [List.dropWhile_cons, hc]
  | cons a w ih =>
    simp only [List.cons_append, List.dropWhile_cons, hw a (List.mem_cons_self a w)]
    exact ih (fun x hx => hw x (List.mem_cons_of_mem a hx))

theorem star_step (p : Char → Bool) (it : List RItem) (w : List Char) (c : Char)
    (r : List Char) (v : List (List Char) × List Char)
    (hw : ∀ x ∈ w, p x = true) (hc : p c = false)
    (hv : matchSeq it (c :: r) = some v) :
    matchSeq (.star p :: it) (w ++ c :: r) = some v := by
  have ht := takeWhile_append_cons p w c r hw hc
  have hd := dropWhile_append_cons p w c r hw hc
  simp only [matchSeq, starSplits, ht, hd, List.range_succ, List.reverse_append,
    List.reverse_cons, List.reverse_nil, List.nil_append, List.map_cons,
    List.take_length, List.drop_length, List.cons_append, firstSome, hv]

theorem star_step_nil (p : Char → Bool) (it : List RItem) (c : Char) (r : List Char)
    (hc : p c = false) :
    matchSeq (.star p :: it) (c :: r) = matchSeq it (c :: r) := by
  have ht : (c :: r).takeWhile p = [] := by simp [List.takeWhile_cons, hc]
  have hd : (c :: r).dropWhile p = c :: r := by simp [List.dropWhile_cons, hc]
  simp only [matchSeq, starSplits, ht, hd, List.length_nil, List.range_succ,
    List.range_zero, List.nil_append, List.reverse_cons, List.reverse_nil,
    List.map_cons, List.map_nil, List.take_nil, List.drop_nil, firstSome]
  cases hm : matchSeq it (c :: r) <;> simp [hm]

theorem grp_step (p : Char → Bool) (it : List RItem) (w : List Char) (c : Char)
    (r : List Char) (caps : List (List Char)) (u : List Char)
    (hw : ∀ x ∈ w, p x = true) (hne : w ≠ []) (hc : p c = false)
    (hv : matchSeq it (c :: r) = some (caps, u)) :
    matchSeq (.grp p :: it) (w ++ c :: r) = some (w :: caps, u) := by
  have ht := takeWhile_append_cons p w c r hw hc
  have hd := dropWhile_append_cons p w c r hw hc
  obtain ⟨n, hn⟩ : ∃ n, w.length = n + 1 := by
    cases w with
    | nil => exact absurd rfl hne
    | cons a w => exact ⟨w.length, rfl⟩
  have hrange : (List.range w.length).reverse = n :: (List.range n).reverse := by
    rw [hn, List.range_succ, List.reverse_append]; rfl
  have htake : w.take (n + 1) = w := List.take_of_length_le (by omega)
  have hdrop : w.drop (n + 1) = [] := List.drop_of_length_le (by omega)
  simp only [matchSeq, plusSplits, ht, hd, hrange, List.map_cons, htake, hdrop,
    List.nil_append, firstSome, hv, Option.map_some']

theorem grpLit_step (l : List Char) (it : List RItem) (s : List Char) :
    matchSeq (.grpLit l :: it) (l ++ s) =
      (matchSeq it s).map (fun cr => (l :: cr.1, cr.2)) := by
  simp [matchSeq, List.drop_left]

theorem grpLit_fail (l : List Char) (it : List RItem) (s : List Char) (h : ¬ l <+: s) :
    matchSeq (.grpLit l :: it) s = none := by
  simp [matchSeq, h]

theorem firstSome_eq_some {α β : Type} (l : List α) (f : α → Option β) (b : β)
    (h : firstSome l f = some b) : ∃ a, a ∈ l ∧ f a = some b := by
  induction l with
  | nil => simp [firstSome] at h
  | cons a as ih =>
    simp only [firstSome] at h
    cases ha : f a with
    | some b' =>
      rw [ha] at h
      exact ⟨a, List.mem_cons_self a as, ha.trans h⟩
    | none =>
      rw [ha] at h
      obtain ⟨x, hx, hfx⟩ := ih h
      exact ⟨x, List.mem_cons_of_mem a hx, hfx⟩

/-! ### Scanning lemmas -/

theorem findIterAux_nil (items : List RItem) (fuel : Nat) :
    findIterAux items fuel [] = [] := by
  cases fuel with
  | zero => rfl
  | succ k =>
    cases hm : matchSeq items [] with
    | some v =>
      obtain ⟨caps, r⟩ := v
      simp [findIterAux, hm]
    | none => simp [findIterAux, hm]

theorem findIterAux_fuel (items : List RItem) :
    ∀ f₁ f₂ s, s.length ≤ f₁ → s.length ≤ f₂ →
      findIterAux items f₁ s = findIterAux items f₂ s := by
  intro f₁
  induction f₁ with
  | zero =>
    intro f₂ s h1 _
    have hs : s = [] := List.length_eq_zero.mp (Nat.le_zero.mp h1)
    subst hs
    rw [findIterAux_nil, findIterAux_nil]
  | succ k ih =>
    intro f₂ s h1 h2
    cases s with
    | nil => rw [findIterAux_nil, findIterAux_nil]
    | cons c s' =>
      cases f₂ with
      | zero => simp at h2
      | succ m =>
        simp only [findIterAux]
        cases hm : matchSeq items (c :: s') with
        | some v =>
          obtain ⟨caps, r⟩ := v
          simp only
          by_cases hlt : r.length < (c :: s').length
          · rw [if_pos hlt, if_pos hlt]
            have hb1 : r.length ≤ k := by
              simp only [List.length_cons] at hlt h1; omega
            have hb2 : r.length ≤ m := by
              simp only [List.length_cons] at hlt h2; omega
            rw [ih m r hb1 hb2]
          · rw [if_neg hlt, if_neg hlt]
        | none =>
          simp only
          have hb1 : s'.length ≤ k := by
            simp only [List.length_cons] at h1; omega
          have hb2 : s'.length ≤ m := by
            simp only [List.length_cons] at h2; omega
          exact ih m s' hb1 hb2

theorem findIterL_cons_skip (items : List RItem) (c : Char) (s : List Char)
    (h : matchSeq items (c :: s) = none) :
    findIterL items (c :: s) = findIterL items s := by
  show findIterAux items (s.length + 1) (c :: s) = findIterAux items s.length s
  simp [findIterAux, h]

theorem findIterL_match (items : List RItem) (s : List Char)
    (caps : List (List Char)) (r : List Char)
    (h : matchSeq items s = some (caps, r)) (hlt : r.length < s.length) :
    findIterL items s = (s.take (s.length - r.length), caps) :: findIterL items r := by
  cases s with
  | nil => simp at hlt
  | cons c s' =>
    show findIterAux items (s'.length + 1) (c :: s') = _
    have hlt' : r.length < s'.length + 1 := by
      simpa using hlt
    have hb : r.length ≤ s'.length := by omega
    simp only [findIterAux, h]
    rw [if_pos hlt, findIterAux_fuel items s'.length r.length r hb (le_refl _)]
    rfl

theorem searchAux_cons_false (items : List RItem) (c : Char) (s : List Char)
    (h : matchSeq items (c :: s) = none) :
    searchAux items (c :: s) = searchAux items s := by
  simp [searchAux, h]

theorem findIterL_eq_nil_of_search (items : List RItem) (s : List Char)
    (h : searchAux items s = false) : findIterL items s = [] := by
  induction s with
  | nil => rfl
  | cons c s' ih =>
    simp only [searchAux, Bool.or_eq_false_iff] at h
    have hm : matchSeq items (c :: s') = none :=
      Option.not_isSome_iff_eq_none.mp (by simp [h.1])
    rw [findIterL_cons_skip items c s' hm, ih h.2]

theorem litHead_search_false (d : Char) (l : List Char) (it : List RItem) :
    ∀ s : List Char, (∀ c ∈ s, c ≠ d) →
      searchAux (.lit (d :: l) :: it) s = false := by
  intro s
  induction s with
  | nil =>
    intro _
    simp [searchAux, lit_nil_fail]
  | cons c s' ih =>
    intro h
    have hm := lit_head_fail d c l it s' (Ne.symm (h c (List.mem_cons_self c s')))
    rw [searchAux_cons_false _ c s' hm]
    exact ih (fun x hx => h x (List.mem_cons_of_mem c hx))

theorem litHead_findIterL_nil (d : Char) (l : List Char) (it : List RItem)
    (s : List Char) (h : ∀ c ∈ s, c ≠ d) :
    findIterL (.lit (d :: l) :: it) s = [] :=
  findIterL_eq_nil_of_search _ _ (litHead_search_false d l it s h)

theorem findIterL_through (d : Char) (l : List Char) (it : List RItem) :
    ∀ (p rest : List Char), (∀ c ∈ p, c ≠ d) →
      findIterL (.lit (d :: l) :: it) (p ++ rest) =
        findIterL (.lit (d :: l) :: it) rest := by
  intro p
  induction p with
  | nil => intro rest _; rw [List.nil_append]
  | cons c p' ih =>
    intro rest h
    rw [List.cons_append,
      findIterL_cons_skip _ c (p' ++ rest)
        (lit_head_fail d c l it (p' ++ rest) (Ne.symm (h c (List.mem_cons_self c p')))),
      ih rest (fun x hx => h x (List.mem_cons_of_mem c hx))]

/-! ### The positive trace of the rewrite pattern -/

theorem quotedArg_step (it : List RItem) (w X : List Char)
    (caps : List (List Char)) (u : List Char)
    (hw : ∀ c ∈ w, notQuote c = true) (hne : w ≠ [])
    (hv : matchSeq it X = some (caps, u)) :
    matchSeq (.opt (· = '"') :: .opt (· = '\'') :: .grp notQuote ::
        .opt (· = '"') :: .opt (· = '\'') :: it)
      ('\'' :: (w ++ ('\'' :: X))) = some (w :: caps, u) := by
  have h1 : matchSeq (.opt (· = '\'') :: it) ('\'' :: X) = some (caps, u) :=
    opt_take _ it '\'' X (caps, u) (by decide) hv
  have h2 : matchSeq (.opt (· = '"') :: .opt (· = '\'') :: it)
      ('\'' :: X) = some (caps, u) :=
    (opt_skip _ _ '\'' X (by decide)).trans h1
  have h3 : matchSeq (.grp notQuote :: .opt (· = '"') :: .opt (· = '\'') :: it)
      (w ++ ('\'' :: X)) = some (w :: caps, u) :=
    grp_step notQuote _ w '\'' X caps u hw hne (by decide) h2
  have h4 : matchSeq (.opt (· = '\'') :: .grp notQuote ::
      .opt (· = '"') :: .opt (· = '\'') :: it)
      ('\'' :: (w ++ ('\'' :: X))) = some (w :: caps, u) :=
    opt_take _ _ '\'' _ _ (by decide) h3
  exact (opt_skip _ _ '\'' _ (by decide)).trans h4

theorem matchSeq_srcExpr_cons (a b q : List Char)
    (ha : ∀ c ∈ a, notQuote c = true) (ha0 : a ≠ [])
    (hb : ∀ c ∈ b, notQuote c = true) (hb0 : b ≠ []) :
    matchSeq rwItems
      (lbr :: lbr :: ' ' :: 's' :: 'o' :: 'u' :: 'r' :: 'c' :: 'e' :: '(' :: '\'' ::
        (a ++ ('\'' :: ',' :: '\'' :: (b ++ ('\'' :: ')' :: ' ' :: rbr :: rbr :: q)))))
      = some ([a, b], q) := by
  have e1 : matchSeq [.lit [rbr, rbr]] (rbr :: rbr :: q) = some ([], q) :=
    (lit_step [rbr, rbr] [] q).trans rfl
  have e2 : matchSeq [.star isPySpace, .lit [rbr, rbr]]
      (' ' :: rbr :: rbr :: q) = some ([], q) :=
    star_step isPySpace _ [' '] rbr (rbr :: q) ([], q)
      (by decide) (by decide) e1
  have e3 : matchSeq [.lit [')'], .star isPySpace, .lit [rbr, rbr]]
      (')' :: ' ' :: rbr :: rbr :: q) = some ([], q) :=
    (lit_step [')'] _ (' ' :: rbr :: rbr :: q)).trans e2
  have e4 : matchSeq [.star isPySpace, .lit [')'], .star isPySpace, .lit [rbr, rbr]]
      (')' :: ' ' :: rbr :: rbr :: q) = some ([], q) :=
    (star_step_nil isPySpace _ ')' _ (by decide)).trans e3
  have e5 : matchSeq (.opt (· = '"') :: .opt (· = '\'') :: .grp notQuote ::
      .opt (· = '"') :: .opt (· = '\'') ::
      [.star isPySpace, .lit [')'], .star isPySpace, .lit [rbr, rbr]])
      ('\'' :: (b ++ ('\'' :: ')' :: ' ' :: rbr :: rbr :: q))) = some ([b], q) :=
    quotedArg_step _ b _ [] q hb hb0 e4
  have e6 : matchSeq (.star isPySpace :: .opt (· = '"') :: .opt (· = '\'') ::
      .grp notQuote :: .opt (· = '"') :: .opt (· = '\'') ::
      [.star isPySpace, .lit [')'], .star isPySpace, .lit [rbr, rbr]])
      ('\'' :: (b ++ ('\'' :: ')' :: ' ' :: rbr :: rbr :: q))) = some ([b], q) :=
    (star_step_nil isPySpace _ '\'' _ (by decide)).trans e5
  have e7 : matchSeq (.lit [','] :: .star isPySpace ::
      .opt (· = '"') :: .opt (· = '\'') :: .grp notQuote ::
      .opt (· = '"') :: .opt (· = '\'') ::
      [.star isPySpace, .lit [')'], .star isPySpace, .lit [rbr, rbr]])
      (',' :: '\'' :: (b ++ ('\'' :: ')' :: ' ' :: rbr :: rbr :: q))) = some ([b], q) :=
    (lit_step [','] _ _).trans e6
  have e8 : matchSeq (.star isPySpace :: .lit [','] :: .star isPySpace ::
      .opt (· = '"') :: .opt (· = '\'') :: .grp notQuote ::
      .opt (· = '"') :: .opt (· = '\'') ::
      [.star isPySpace, .lit [')'], .star isPySpace, .lit [rbr, rbr]])
      (',' :: '\'' :: (b ++ ('\'' :: ')' :: ' ' :: rbr :: rbr :: q))) = some ([b], q) :=
    (star_step_nil isPySpace _ ',' _ (by decide)).trans e7
  have e9 : matchSeq (.opt (· = '"') :: .opt (· = '\'') :: .grp notQuote ::
      .opt (· = '"') :: .opt (· = '\'') ::
      .star isPySpace :: .lit [','] :: .star isPySpace ::
      .opt (· = '"') :: .opt (· = '\'') :: .grp notQuote ::
      .opt (· = '"') :: .opt (· = '\'') ::
      [.star isPySpace, .lit [')'], .star isPySpace, .lit [rbr, rbr]])
      ('\'' :: (a ++ ('\'' :: (',' :: '\'' ::
        (b ++ ('\'' :: ')' :: ' ' :: rbr :: rbr :: q)))))) = some ([a, b], q) :=
    quotedArg_step _ a _ [b] q ha ha0 e8
  have e10 : matchSeq (.star isPySpace :: .opt (· = '"') :: .opt (· = '\'') ::
      .grp notQuote :: .opt (· = '"') :: .opt (· = '\'') ::
      .star isPySpace :: .lit [','] :: .star isPySpace ::
      .opt (· = '"') :: .opt (· = '\'') :: .grp notQuote ::
      .opt (· = '"') :: .opt (· = '\'') ::
      [.star isPySpace, .lit [')'], .star isPySpace, .lit [rbr, rbr]])
      ('\'' :: (a ++ ('\'' :: ',' :: '\'' ::
        (b ++ ('\'' :: ')' :: ' ' :: rbr :: rbr :: q))))) = some ([a, b], q) :=
    (star_step_nil isPySpace _ '\'' _ (by decide)).trans e9
  have e11 : matchSeq (.lit ['('] :: .star isPySpace ::
      .opt (· = '"') :: .opt (· = '\'') :: .grp notQuote ::
      .opt (· = '"') :: .opt (· = '\'') ::
      .star isPySpace :: .lit [','] :: .star isPySpace ::
      .opt (· = '"') :: .opt (· = '\'') :: .grp notQuote ::
      .opt (· = '"') :: .opt (· = '\'') ::
      [.star isPySpace, .lit [')'], .star isPySpace, .lit [rbr, rbr]])
      ('(' :: '\'' :: (a ++ ('\'' :: ',' :: '\'' ::
        (b ++ ('\'' :: ')' :: ' ' :: rbr :: rbr :: q))))) = some ([a, b], q) :=
    (lit_step ['('] _ _).trans e10
  have e12 : matchSeq (.star isPySpace :: .lit ['('] :: .star isPySpace ::
      .opt (· = '"') :: .opt (· = '\'') :: .grp notQuote ::
      .opt (· = '"') :: .opt (· = '\'') ::
      .star isPySpace :: .lit [','] :: .star isPySpace ::
      .opt (· = '"') :: .opt (· = '\'') :: .grp notQuote ::
      .opt (· = '"') :: .opt (· = '\'') ::
      [.star isPySpace, .lit [')'], .star isPySpace, .lit [rbr, rbr]])
      ('(' :: '\'' :: (a ++ ('\'' :: ',' :: '\'' ::
        (b ++ ('\'' :: ')' :: ' ' :: rbr :: rbr :: q))))) = some ([a, b], q) :=
    (star_step_nil isPySpace _ '(' _ (by decide)).trans e11
  have e13 : matchSeq (.lit ['s', 'o', 'u', 'r', 'c', 'e'] ::
      .star isPySpace :: .lit ['('] :: .star isPySpace ::
      .opt (· = '"') :: .opt (· = '\'') :: .grp notQuote ::
      .opt (· = '"') :: .opt (· = '\'') ::
      .star isPySpace :: .lit [','] :: .star isPySpace ::
      .opt (· = '"') :: .opt (· = '\'') :: .grp notQuote ::
      .opt (· = '"') :: .opt (· = '\'') ::
      [.star isPySpace, .lit [')'], .star isPySpace, .lit [rbr, rbr]])
      ('s' :: 'o' :: 'u' :: 'r' :: 'c' :: 'e' :: '(' :: '\'' ::
        (a ++ ('\'' :: ',' :: '\'' ::
          (b ++ ('\'' :: ')' :: ' ' :: rbr :: rbr :: q))))) = some ([a, b], q) :=
    (lit_step ['s', 'o', 'u', 'r', 'c', 'e'] _ _).trans e12
  have e14 : matchSeq (.star isPySpace :: .lit ['s', 'o', 'u', 'r', 'c', 'e'] ::
      .star isPySpace :: .lit ['('] :: .star isPySpace ::
      .opt (· = '"') :: .opt (· = '\'') :: .grp notQuote ::
      .opt (· = '"') :: .opt (· = '\'') ::
      .star isPySpace :: .lit [','] :: .star isPySpace ::
      .opt (· = '"') :: .opt (· = '\'') :: .grp notQuote ::
      .opt (· = '"') :: .opt (· = '\'') ::
      [.star isPySpace, .lit [')'], .star isPySpace, .lit [rbr, rbr]])
      (' ' :: 's' :: 'o' :: 'u' :: 'r' :: 'c' :: 'e' :: '(' :: '\'' ::
        (a ++ ('\'' :: ',' :: '\'' ::
          (b ++ ('\'' :: ')' :: ' ' :: rbr :: rbr :: q))))) = some ([a, b], q) :=
    star_step isPySpace _ [' '] 's' _ ([a, b], q) (by decide) (by decide) e13
  exact (lit_step [lbr, lbr] _ _).trans e14

theorem srcExpr_append (a b q : List Char) :
    srcExpr a b ++ q =
      lbr :: lbr :: ' ' :: 's' :: 'o' :: 'u' :: 'r' :: 'c' :: 'e' :: '(' :: '\'' ::
        (a ++ ('\'' :: ',' :: '\'' :: (b ++ ('\'' :: ')' :: ' ' :: rbr :: rbr :: q)))) := by
  simp [srcExpr, List.append_assoc]

theorem matchSeq_srcExpr (a b q : List Char)
    (ha : ∀ c ∈ a, notQuote c = true) (ha0 : a ≠ [])
    (hb : ∀ c ∈ b, notQuote c = true) (hb0 : b ≠ []) :
    matchSeq rwItems (srcExpr a b ++ q) = some ([a, b], q) := by
  rw [srcExpr_append]
  exact matchSeq_srcExpr_cons a b q ha ha0 hb hb0

/-! ### Replacement lemmas -/

theorem replaceAux_id (old new : List Char) (ho : old.head? = some lbr) :
    ∀ fuel s, (∀ c ∈ s, c ≠ lbr) → replaceAux old new fuel s = s := by
  obtain ⟨ol, rfl⟩ : ∃ ol, old = lbr :: ol := by
    cases old with
    | nil => simp at ho
    | cons o ol =>
      simp only [List.head?_cons, Option.some.injEq] at ho
      exact ⟨ol, by rw [ho]⟩
  intro fuel
  induction fuel with
  | zero => intro s _; rfl
  | succ k ih =>
    intro s hs
    cases s with
    | nil => rfl
    | cons c s' =>
      have hc : c ≠ lbr := hs c (List.mem_cons_self c s')
      have hpre : (lbr :: ol).isPrefixOf (c :: s') = false := by
        simp [List.isPrefixOf, Ne.symm hc]
      simp only [replaceAux, hpre, Bool.and_false, Bool.false_eq_true, if_false]
      exact congrArg (c :: ·) (ih s' (fun x hx => hs x (List.mem_cons_of_mem c hx)))

theorem pyReplace_cons_skip (old new : List Char) (c : Char) (s : List Char)
    (ho : old.head? = some lbr) (hc : c ≠ lbr) :
    pyReplace (c :: s) old new = c :: pyReplace s old new := by
  obtain ⟨ol, rfl⟩ : ∃ ol, old = lbr :: ol := by
    cases old with
    | nil => simp at ho
    | cons o ol =>
      simp only [List.head?_cons, Option.some.injEq] at ho
      exact ⟨ol, by rw [ho]⟩
  have hpre : (lbr :: ol).isPrefixOf (c :: s) = false := by
    simp [List.isPrefixOf, Ne.symm hc]
  show replaceAux (lbr :: ol) new (s.length + 1) (c :: s) = _
  simp only [replaceAux, hpre, Bool.and_false, Bool.false_eq_true, if_false]
  rfl

theorem pyReplace_hit (old new q : List Char) (ho : old.head? = some lbr)
    (hq : ∀ c ∈ q, c ≠ lbr) :
    pyReplace (old ++ q) old new = new ++ q := by
  obtain ⟨ol, rfl⟩ : ∃ ol, old = lbr :: ol := by
    cases old with
    | nil => simp at ho
    | cons o ol =>
      simp only [List.head?_cons, Option.some.injEq] at ho
      exact ⟨ol, by rw [ho]⟩
  have hcond : (!(lbr :: ol).isEmpty &&
      (lbr :: ol).isPrefixOf (lbr :: (ol ++ q))) = true := by
    have hpre : (lbr :: ol).isPrefixOf ((lbr :: ol) ++ q) = true := by simp
    simp only [List.cons_append] at hpre
    simp [hpre]
  show replaceAux (lbr :: ol) new ((ol ++ q).length + 1) (lbr :: (ol ++ q)) = _
  simp only [replaceAux]
  rw [if_pos hcond]
  have hdrop : (lbr :: (ol ++ q)).drop (lbr :: ol).length = q :=
    List.drop_left (lbr :: ol) q
  rw [hdrop, replaceAux_id (lbr :: ol) new (by simp) _ q hq]

theorem pyReplace_clean (old new : List Char) (ho : old.head? = some lbr) :
    ∀ p q, (∀ c ∈ p, c ≠ lbr) → (∀ c ∈ q, c ≠ lbr) →
      pyReplace (p ++ (old ++ q)) old new = p ++ (new ++ q) := by
  intro p
  induction p with
  | nil =>
    intro q _ hq
    exact pyReplace_hit old new q ho hq
  | cons c p' ih =>
    intro q hp hq
    have hc : c ≠ lbr := hp c (List.mem_cons_self c p')
    rw [List.cons_append, pyReplace_cons_skip old new c _ ho hc,
      ih q (fun x hx => hp x (List.mem_cons_of_mem c hx)) hq]
    rfl

/-! ### The Rewriter on a clean single occurrence -/

theorem srcExpr_head (a b : List Char) : (srcExpr a b).head? = some lbr := by
  simp [srcExpr]

theorem rewrite_single (p q a b : List Char)
    (hp : ∀ c ∈ p, c ≠ lbr) (hq : ∀ c ∈ q, c ≠ lbr)
    (ha : ∀ c ∈ a, notQuote c = true) (ha0 : a ≠ [])
    (hb : ∀ c ∈ b, notQuote c = true) (hb0 : b ≠ []) :
    replace_sources_with_refs (p ++ (srcExpr a b ++ q)) = p ++ (newRef a b ++ q) := by
  have hmatch := matchSeq_srcExpr a b q ha ha0 hb hb0
  have hlt : q.length < (srcExpr a b ++ q).length := by
    simp [srcExpr, List.length_append]
    omega
  have hq_nil : findIterL rwItems q = [] :=
    litHead_findIterL_nil lbr [lbr] _ q hq
  have h1 : findIterL rwItems (p ++ (srcExpr a b ++ q)) =
      findIterL rwItems (srcExpr a b ++ q) :=
    findIterL_through lbr [lbr] _ p _ hp
  have h2 := findIterL_match rwItems (srcExpr a b ++ q) [a, b] q hmatch hlt
  have h3 : (srcExpr a b ++ q).take ((srcExpr a b ++ q).length - q.length) =
      srcExpr a b :=
    List.take_left' (by simp [List.length_append])
  have hfind : findIterL rwItems (p ++ (srcExpr a b ++ q)) =
      [(srcExpr a b, [a, b])] := by
    rw [h1, h2, h3, hq_nil]
  have hrm : rewriteMatches (p ++ (srcExpr a b ++ q)) = [(srcExpr a b, a, b)] := by
    simp [rewriteMatches, hfind]
  show (rewriteMatches (p ++ (srcExpr a b ++ q))).foldl _ _ = _
  rw [hrm]
  show pyReplace (p ++ (srcExpr a b ++ q)) (srcExpr a b) (newRef a b) = _
  exact pyReplace_clean (srcExpr a b) (newRef a b) (srcExpr_head a b) p q hp hq

/-! ### The positive trace of the scan pattern -/

theorem quote_not_space (c : Char) (h : isQuote c = true) : isPySpace c = false := by
  simp only [isQuote, Bool.or_eq_true, decide_eq_true_eq] at h
  rcases h with h | h <;> subst h <;> rfl

theorem notQuote_of_quote (c : Char) (h : isQuote c = true) : notQuote c = false := by
  simp [notQuote, h]

theorem matchSeq_srcCall (w1 w2 : List Char) (q1 : Char) (n : List Char) (q2 : Char)
    (w3 w4 : List Char) (q3 : Char) (t : List Char) (q4 : Char) (w5 q : List Char)
    (hw1 : ∀ c ∈ w1, isPySpace c = true) (hw2 : ∀ c ∈ w2, isPySpace c = true)
    (hw3 : ∀ c ∈ w3, isPySpace c = true) (hw4 : ∀ c ∈ w4, isPySpace c = true)
    (hw5 : ∀ c ∈ w5, isPySpace c = true)
    (hq1 : isQuote q1 = true) (hq2 : isQuote q2 = true)
    (hq3 : isQuote q3 = true) (hq4 : isQuote q4 = true)
    (ht : ∀ c ∈ t, notQuote c = true) (ht0 : t ≠ []) :
    matchSeq (scanItems n) (srcCall w1 w2 q1 n q2 w3 w4 q3 t q4 w5 q) =
      some ([n, t], q) := by
  have f2 : matchSeq [.lit [')']] (')' :: q) = some ([], q) :=
    (lit_step [')'] [] q).trans rfl
  have f3 : matchSeq [.star isPySpace, .lit [')']] (w5 ++ ')' :: q) = some ([], q) :=
    star_step isPySpace _ w5 ')' q ([], q) hw5 (by decide) f2
  have f4 : matchSeq (.opt isQuote :: [.star isPySpace, .lit [')']])
      (q4 :: (w5 ++ ')' :: q)) = some ([], q) :=
    opt_take isQuote _ q4 _ ([], q) hq4 f3
  have f5 : matchSeq (.grp notQuote :: .opt isQuote :: [.star isPySpace, .lit [')']])
      (t ++ q4 :: (w5 ++ ')' :: q)) = some ([t], q) :=
    grp_step notQuote _ t q4 _ [] q ht ht0 (notQuote_of_quote q4 hq4) f4
  have f6 : matchSeq (.one isQuote :: .grp notQuote :: .opt isQuote ::
      [.star isPySpace, .lit [')']])
      (q3 :: (t ++ q4 :: (w5 ++ ')' :: q))) = some ([t], q) :=
    (one_step isQuote _ q3 _ hq3).trans f5
  have f7 : matchSeq (.star isPySpace :: .one isQuote :: .grp notQuote ::
      .opt isQuote :: [.star isPySpace, .lit [')']])
      (w4 ++ q3 :: (t ++ q4 :: (w5 ++ ')' :: q))) = some ([t], q) :=
    star_step isPySpace _ w4 q3 _ ([t], q) hw4 (quote_not_space q3 hq3) f6
  have f8 : matchSeq (.lit [','] :: .star isPySpace :: .one isQuote :: .grp notQuote ::
      .opt isQuote :: [.star isPySpace, .lit [')']])
      (',' :: (w4 ++ q3 :: (t ++ q4 :: (w5 ++ ')' :: q)))) = some ([t], q) :=
    (lit_step [','] _ _).trans f7
  have f9 : matchSeq (.star isPySpace :: .lit [','] :: .star isPySpace ::
      .one isQuote :: .grp notQuote :: .opt isQuote :: [.star isPySpace, .lit [')']])
      (w3 ++ ',' :: (w4 ++ q3 :: (t ++ q4 :: (w5 ++ ')' :: q)))) = some ([t], q) :=
    star_step isPySpace _ w3 ',' _ ([t], q) hw3 (by decide) f8
  have f10 : matchSeq (.opt isQuote :: .star isPySpace :: .lit [','] ::
      .star isPySpace :: .one isQuote :: .grp notQuote :: .opt isQuote ::
      [.star isPySpace, .lit [')']])
      (q2 :: (w3 ++ ',' :: (w4 ++ q3 :: (t ++ q4 :: (w5 ++ ')' :: q))))) =
      some ([t], q) :=
    opt_take isQuote _ q2 _ ([t], q) hq2 f9
  have f11 : matchSeq (.grpLit n :: .opt isQuote :: .star isPySpace :: .lit [','] ::
      .star isPySpace :: .one isQuote :: .grp notQuote :: .opt isQuote ::
      [.star isPySpace, .lit [')']])
      (n ++ q2 :: (w3 ++ ',' :: (w4 ++ q3 :: (t ++ q4 :: (w5 ++ ')' :: q))))) =
      some ([n, t], q) := by
    rw [grpLit_step, f10]
    rfl
  have f12 : matchSeq (.one isQuote :: .grpLit n :: .opt isQuote :: .star isPySpace ::
      .lit [','] :: .star isPySpace :: .one isQuote :: .grp notQuote :: .opt isQuote ::
      [.star isPySpace, .lit [')']])
      (q1 :: (n ++ q2 :: (w3 ++ ',' :: (w4 ++ q3 :: (t ++ q4 :: (w5 ++ ')' :: q)))))) =
      some ([n, t], q) :=
    (one_step isQuote _ q1 _ hq1).trans f11
  have f13 : matchSeq (.star isPySpace :: .one isQuote :: .grpLit n ::
      .opt isQuote :: .star isPySpace :: .lit [','] :: .star isPySpace ::
      .one isQuote :: .grp notQuote :: .opt isQuote :: [.star isPySpace, .lit [')']])
      (w2 ++ q1 :: (n ++ q2 :: (w3 ++ ',' :: (w4 ++ q3 ::
        (t ++ q4 :: (w5 ++ ')' :: q)))))) = some ([n, t], q) :=
    star_step isPySpace _ w2 q1 _ ([n, t], q) hw2 (quote_not_space q1 hq1) f12
  have f14 : matchSeq (.lit ['('] :: .star isPySpace :: .one isQuote :: .grpLit n ::
      .opt isQuote :: .star isPySpace :: .lit [','] :: .star isPySpace ::
      .one isQuote :: .grp notQuote :: .opt isQuote :: [.star isPySpace, .lit [')']])
      ('(' :: (w2 ++ q1 :: (n ++ q2 :: (w3 ++ ',' :: (w4 ++ q3 ::
        (t ++ q4 :: (w5 ++ ')' :: q))))))) = some ([n, t], q) :=
    (lit_step ['('] _ _).trans f13
  have f15 : matchSeq (.star isPySpace :: .lit ['('] :: .star isPySpace ::
      .one isQuote :: .grpLit n :: .opt isQuote :: .star isPySpace :: .lit [','] ::
      .star isPySpace :: .one isQuote :: .grp notQuote :: .opt isQuote ::
      [.star isPySpace, .lit [')']])
      (w1 ++ '(' :: (w2 ++ q1 :: (n ++ q2 :: (w3 ++ ',' :: (w4 ++ q3 ::
        (t ++ q4 :: (w5 ++ ')' :: q))))))) = some ([n, t], q) :=
    star_step isPySpace _ w1 '(' _ ([n, t], q) hw1 (by decide) f14
  exact (lit_step ['s', 'o', 'u', 'r', 'c', 'e'] _ _).trans f15

theorem scan_pos (p w1 w2 : List Char) (q1 : Char) (n : List Char) (q2 : Char)
    (w3 w4 : List Char) (q3 : Char) (t : List Char) (q4 : Char) (w5 q : List Char)
    (hp : ∀ c ∈ p, c ≠ 's')
    (hw1 : ∀ c ∈ w1, isPySpace c = true) (hw2 : ∀ c ∈ w2, isPySpace c = true)
    (hw3 : ∀ c ∈ w3, isPySpace c = true) (hw4 : ∀ c ∈ w4, isPySpace c = true)
    (hw5 : ∀ c ∈ w5, isPySpace c = true)
    (hq1 : isQuote q1 = true) (hq2 : isQuote q2 = true)
    (hq3 : isQuote q3 = true) (hq4 : isQuote q4 = true)
    (ht : ∀ c ∈ t, notQuote c = true) (ht0 : t ≠ []) :
    t ∈ usedTables n (p ++ srcCall w1 w2 q1 n q2 w3 w4 q3 t q4 w5 q) := by
  have hm := matchSeq_srcCall w1 w2 q1 n q2 w3 w4 q3 t q4 w5 q
    hw1 hw2 hw3 hw4 hw5 hq1 hq2 hq3 hq4 ht ht0
  have hlt : q.length < (srcCall w1 w2 q1 n q2 w3 w4 q3 t q4 w5 q).length := by
    simp [srcCall, List.length_append]
    omega
  have h1 : findIterL (scanItems n)
      (p ++ srcCall w1 w2 q1 n q2 w3 w4 q3 t q4 w5 q) =
      findIterL (scanItems n) (srcCall w1 w2 q1 n q2 w3 w4 q3 t q4 w5 q) :=
    findIterL_through 's' ['o', 'u', 'r', 'c', 'e'] _ p _ hp
  have h2 := findIterL_match (scanItems n) _ [n, t] q hm hlt
  have hpair : (n, t) ∈ scanPairs n
      (p ++ srcCall w1 w2 q1 n q2 w3 w4 q3 t q4 w5 q) := by
    unfold scanPairs
    rw [h1, h2]
    simp
  have := List.mem_filterMap.mpr
    (⟨(n, t), hpair, by simp⟩ :
      ∃ ab ∈ scanPairs n (p ++ srcCall w1 w2 q1 n q2 w3 w4 q3 t q4 w5 q),
        (if ab.1 = n then some ab.2 else none) = some t)
  exact this

/-! ### The negative trace of the scan pattern -/

theorem prefix_append_cases (n s2 y : List Char) (h : n <+: s2 ++ y) :
    n <+: s2 ∨ (s2 <+: n ∧ n.drop s2.length <+: y) := by
  by_cases hle : n.length ≤ s2.length
  · left
    have h1 : n = (s2 ++ y).take n.length := List.prefix_iff_eq_take.mp h
    rw [List.take_append_of_le_length hle] at h1
    rw [h1]
    exact List.take_prefix _ _
  · right
    obtain ⟨k, hk⟩ := h
    have hlen : s2.length ≤ n.length := by omega
    constructor
    · have h1 : (n ++ k).take s2.length = n.take s2.length :=
        List.take_append_of_le_length hlen
      rw [hk, List.take_left] at h1
      rw [h1]
      exact List.take_prefix _ _
    · have h1 : (n ++ k).drop s2.length = n.drop s2.length ++ k :=
        List.drop_append_of_le_length hlen
      rw [hk, List.drop_left] at h1
      exact ⟨k, h1.symm⟩

theorem scan_name_mismatch (n s2 rest : List Char)
    (hne : ¬ n <+: s2) (hnq : ∀ c ∈ n, notQuote c = true) :
    ¬ n <+: (s2 ++ '\'' :: rest) := by
  intro h
  rcases prefix_append_cases n s2 ('\'' :: rest) h with h1 | ⟨h1, h2⟩
  · exact hne h1
  · cases hr : n.drop s2.length with
    | nil =>
      have hlen : n.length ≤ s2.length := by
        have := List.drop_eq_nil_iff.mp hr
        omega
      exact hne (h1.eq_of_length_le hlen ▸ List.prefix_refl n)
    | cons c r' =>
      rw [hr] at h2
      obtain ⟨k, hk⟩ := h2
      have hc : c = '\'' := by injection hk
      have hmem : c ∈ n := List.drop_subset s2.length n (hr ▸ List.mem_cons_self c r')
      have := hnq c hmem
      rw [hc] at this
      simp [notQuote, isQuote] at this

theorem matchSeq_scan_neg (n s2 rest : List Char)
    (hne : ¬ n <+: s2) (hnq : ∀ c ∈ n, notQuote c = true) :
    matchSeq (scanItems n)
      ('s' :: 'o' :: 'u' :: 'r' :: 'c' :: 'e' :: '(' :: '\'' :: (s2 ++ '\'' :: rest))
      = none := by
  have g1 : matchSeq (.grpLit n :: .opt isQuote :: .star isPySpace :: .lit [','] ::
      .star isPySpace :: .one isQuote :: .grp notQuote :: .opt isQuote ::
      [.star isPySpace, .lit [')']]) (s2 ++ '\'' :: rest) = none :=
    grpLit_fail n _ _ (scan_name_mismatch n s2 rest hne hnq)
  have g2 : matchSeq (.one isQuote :: .grpLit n :: .opt isQuote :: .star isPySpace ::
      .lit [','] :: .star isPySpace :: .one isQuote :: .grp notQuote :: .opt isQuote ::
      [.star isPySpace, .lit [')']]) ('\'' :: (s2 ++ '\'' :: rest)) = none :=
    (one_step isQuote _ '\'' _ (by decide)).trans g1
  have g3 : matchSeq (.star isPySpace :: .one isQuote :: .grpLit n ::
      .opt isQuote :: .star isPySpace :: .lit [','] :: .star isPySpace ::
      .one isQuote :: .grp notQuote :: .opt isQuote ::
      [.star isPySpace, .lit [')']]) ('\'' :: (s2 ++ '\'' :: rest)) = none :=
    (star_step_nil isPySpace _ '\'' _ (by decide)).trans g2
  have g4 : matchSeq (.lit ['('] :: .star isPySpace :: .one isQuote :: .grpLit n ::
      .opt isQuote :: .star isPySpace :: .lit [','] :: .star isPySpace ::
      .one isQuote :: .grp notQuote :: .opt isQuote ::
      [.star isPySpace, .lit [')']]) ('(' :: '\'' :: (s2 ++ '\'' :: rest)) = none :=
    (lit_step ['('] _ _).trans g3
  have g5 : matchSeq (.star isPySpace :: .lit ['('] :: .star isPySpace ::
      .one isQuote :: .grpLit n :: .opt isQuote :: .star isPySpace :: .lit [','] ::
      .star isPySpace :: .one isQuote :: .grp notQuote :: .opt isQuote ::
      [.star isPySpace, .lit [')']]) ('(' :: '\'' :: (s2 ++ '\'' :: rest)) = none :=
    (star_step_nil isPySpace _ '(' _ (by decide)).trans g4
  exact (lit_step ['s', 'o', 'u', 'r', 'c', 'e'] _ _).trans g5

theorem scan_neg (p n s2 t q : List Char)
    (hp : ∀ c ∈ p, c ≠ 's') (hq : ∀ c ∈ q, c ≠ 's')
    (hs2 : ∀ c ∈ s2, c ≠ 's') (ht : ∀ c ∈ t, c ≠ 's')
    (hne : ¬ n <+: s2) (hnq : ∀ c ∈ n, notQuote c = true) :
    scanPairs n (p ++ srcCallPlain s2 t q) = [] := by
  have h1 : findIterL (scanItems n) (p ++ srcCallPlain s2 t q) =
      findIterL (scanItems n) (srcCallPlain s2 t q) :=
    findIterL_through 's' ['o', 'u', 'r', 'c', 'e'] _ p _ hp
  have hneg := matchSeq_scan_neg n s2 (',' :: '\'' :: (t ++ '\'' :: ')' :: q)) hne hnq
  have h2 : findIterL (scanItems n) (srcCallPlain s2 t q) =
      findIterL (scanItems n)
        ('o' :: 'u' :: 'r' :: 'c' :: 'e' :: '(' :: '\'' ::
          (s2 ++ '\'' :: ',' :: '\'' :: (t ++ '\'' :: ')' :: q))) :=
    findIterL_cons_skip _ 's' _ hneg
  have hshape : ('o' :: 'u' :: 'r' :: 'c' :: 'e' :: '(' :: '\'' ::
      (s2 ++ '\'' :: ',' :: '\'' :: (t ++ '\'' :: ')' :: q))) =
      (['o', 'u', 'r', 'c', 'e', '(', '\''] ++ s2 ++ ['\'', ',', '\''] ++ t ++
        ['\'', ')']) ++ q := by
    simp [List.append_assoc]
  have hP2 : ∀ c ∈ (['o', 'u', 'r', 'c', 'e', '(', '\''] ++ s2 ++ ['\'', ',', '\''] ++
      t ++ ['\'', ')']), c ≠ 's' := by
    intro c hc
    simp only [List.mem_append, List.mem_cons, List.not_mem_nil, or_false] at hc
    rcases hc with ((((h | h | h | h | h | h | h) | h) | (h | h | h)) | h) | (h | h)
    all_goals first
      | (subst h; decide)
      | exact hs2 c h
      | exact ht c h
  have h3 : findIterL (scanItems n)
      ((['o', 'u', 'r', 'c', 'e', '(', '\''] ++ s2 ++ ['\'', ',', '\''] ++ t ++
        ['\'', ')']) ++ q) = findIterL (scanItems n) q :=
    findIterL_through 's' ['o', 'u', 'r', 'c', 'e'] _ _ q hP2
  have h4 : findIterL (scanItems n) q = [] :=
    litHead_findIterL_nil 's' ['o', 'u', 'r', 'c', 'e'] _ q hq
  unfold scanPairs
  rw [h1, h2, hshape, h3, h4]
  rfl

/-! ### No match on already rewritten text -/

theorem searchAux_through (d : Char) (l : List Char) (it : List RItem) :
    ∀ (p rest : List Char), (∀ c ∈ p, c ≠ d) →
      searchAux (.lit (d :: l) :: it) (p ++ rest) =
        searchAux (.lit (d :: l) :: it) rest := by
  intro p
  induction p with
  | nil => intro rest _; rw [List.nil_append]
  | cons c p' ih =>
    intro rest h
    rw [List.cons_append,
      searchAux_cons_false _ c (p' ++ rest)
        (lit_head_fail d c l it (p' ++ rest) (Ne.symm (h c (List.mem_cons_self c p')))),
      ih rest (fun x hx => h x (List.mem_cons_of_mem c hx))]

theorem star_fail_cons (p : Char → Bool) (it : List RItem) (c1 c2 : Char)
    (r : List Char) (h1 : p c1 = true) (h2 : p c2 = false)
    (hf1 : matchSeq it (c2 :: r) = none) (hf2 : matchSeq it (c1 :: c2 :: r) = none) :
    matchSeq (.star p :: it) (c1 :: c2 :: r) = none := by
  have ht : (c1 :: c2 :: r).takeWhile p = [c1] :=
    takeWhile_append_cons p [c1] c2 r (by simp [h1]) h2
  have hd : (c1 :: c2 :: r).dropWhile p = c2 :: r :=
    dropWhile_append_cons p [c1] c2 r (by simp [h1]) h2
  simp only [matchSeq, starSplits, ht, hd]
  simp only [List.length_cons, List.length_nil, List.range_succ, List.range_zero,
    List.nil_append, List.reverse_append, List.reverse_cons, List.reverse_nil,
    List.map_cons, List.map_nil, List.cons_append, firstSome]
  simp [hf1, hf2, firstSome, List.take, List.drop]

theorem newRef_append (a b q : List Char) :
    newRef a b ++ q =
      lbr :: lbr :: ' ' :: 'r' :: 'e' :: 'f' :: '(' :: '\'' :: 's' :: 'o' :: 'u' ::
        'r' :: 'c' :: 'e' :: '_' ::
        (a ++ ('_' :: '_' :: (b ++ ('\'' :: ')' :: ' ' :: rbr :: rbr :: q)))) := by
  have hd1 : (" ref('source_").data =
      [' ', 'r', 'e', 'f', '(', '\'', 's', 'o', 'u', 'r', 'c', 'e', '_'] := rfl
  have hd2 : ("__").data = ['_', '_'] := rfl
  have hd3 : ("') ").data = ['\'', ')', ' '] := rfl
  simp [newRef, hd1, hd2, hd3, List.append_assoc]

theorem matchSeq_sourceWord_fail_at_ref (it : List RItem) (X : List Char) :
    matchSeq (.lit [lbr, lbr] :: .star isPySpace ::
        .lit ['s', 'o', 'u', 'r', 'c', 'e'] :: it)
      (lbr :: lbr :: ' ' :: 'r' :: X) = none := by
  have hf1 : matchSeq (.lit ['s', 'o', 'u', 'r', 'c', 'e'] :: it) ('r' :: X) = none :=
    lit_head_fail 's' 'r' _ it X (by decide)
  have hf2 : matchSeq (.lit ['s', 'o', 'u', 'r', 'c', 'e'] :: it)
      (' ' :: 'r' :: X) = none :=
    lit_head_fail 's' ' ' _ it ('r' :: X) (by decide)
  have hstar : matchSeq (.star isPySpace ::
      .lit ['s', 'o', 'u', 'r', 'c', 'e'] :: it) (' ' :: 'r' :: X) = none :=
    star_fail_cons isPySpace _ ' ' 'r' X (by decide) (by decide) hf1 hf2
  exact (lit_step [lbr, lbr] _ _).trans hstar

theorem lit_braces_fail_snd (it : List RItem) (X : List Char) :
    matchSeq (.lit [lbr, lbr] :: it) (lbr :: ' ' :: X) = none := by
  apply lit_fail
  rintro ⟨k, hk⟩
  have : lbr = ' ' := by
    injection hk with _ hk2
    injection hk2
  simp [lbr] at this

theorem search_false_on_ref (it : List RItem) (p q a b : List Char)
    (hp : ∀ c ∈ p, c ≠ lbr) (hq : ∀ c ∈ q, c ≠ lbr)
    (ha : ∀ c ∈ a, c ≠ lbr) (hb : ∀ c ∈ b, c ≠ lbr) :
    searchAux (.lit [lbr, lbr] :: .star isPySpace ::
        .lit ['s', 'o', 'u', 'r', 'c', 'e'] :: it)
      (p ++ (newRef a b ++ q)) = false := by
  rw [searchAux_through lbr [lbr] _ p (newRef a b ++ q) hp, newRef_append]
  rw [searchAux_cons_false _ lbr _
    (matchSeq_sourceWord_fail_at_ref it _)]
  rw [searchAux_cons_false _ lbr _ (lit_braces_fail_snd _ _)]
  have hshape : (' ' :: 'r' :: 'e' :: 'f' :: '(' :: '\'' :: 's' :: 'o' :: 'u' ::
      'r' :: 'c' :: 'e' :: '_' ::
      (a ++ ('_' :: '_' :: (b ++ ('\'' :: ')' :: ' ' :: rbr :: rbr :: q))))) =
      ([' ', 'r', 'e', 'f', '(', '\'', 's', 'o', 'u', 'r', 'c', 'e', '_'] ++ a ++
        ['_', '_'] ++ b ++ ['\'', ')', ' ', rbr, rbr]) ++ q := by
    simp [List.append_assoc]
  rw [hshape]
  apply litHead_search_false
  intro c hc
  simp only [List.append_assoc, List.mem_append] at hc
  rcases hc with h | h | h | h | h | h
  · exact (by decide : ∀ x ∈ [' ', 'r', 'e', 'f', '(', '\'', 's', 'o', 'u', 'r',
      'c', 'e', '_'], x ≠ lbr) c h
  · exact ha c h
  · exact (by decide : ∀ x ∈ ['_', '_'], x ≠ lbr) c h
  · exact hb c h
  · exact (by decide : ∀ x ∈ ['\'', ')', ' ', rbr, rbr], x ≠ lbr) c h
  · exact hq c h

theorem rewrite_id (content : List Char) (h : findIterL rwItems content = []) :
    replace_sources_with_refs content = content := by
  unfold replace_sources_with_refs rewriteMatches
  rw [h]
  rfl

/-! ### Marker search and strip lemmas -/

theorem findSub_some (needle : List Char) :
    ∀ s i, findSub needle s = some i →
      needle <+: s.drop i ∧ ∀ j, j < i → ¬ needle <+: s.drop j := by
  intro s
  induction s with
  | nil =>
    intro i h
    simp only [findSub] at h
    by_cases hp : needle.isPrefixOf []
    · rw [if_pos hp] at h
      injection h with h0
      subst h0
      exact ⟨by simpa using hp, fun j hj => absurd hj (by omega)⟩
    · rw [if_neg hp] at h
      cases h
  | cons c s' ih =>
    intro i h
    simp only [findSub] at h
    by_cases hp : needle.isPrefixOf (c :: s')
    · rw [if_pos hp] at h
      injection h with h0
      subst h0
      exact ⟨by simpa using hp, fun j hj => absurd hj (by omega)⟩
    · rw [if_neg hp] at h
      obtain ⟨i', hi', rfl⟩ := Option.map_eq_some'.mp h
      obtain ⟨h1, h2⟩ := ih i' hi'
      refine ⟨by simpa using h1, ?_⟩
      intro j hj
      cases j with
      | zero =>
        simpa using hp
      | succ j' =>
        intro hpre
        exact h2 j' (by omega) (by simpa using hpre)

theorem findSub_none (needle : List Char) :
    ∀ s, findSub needle s = none → ∀ j, ¬ needle <+: s.drop j := by
  intro s
  induction s with
  | nil =>
    intro h j
    simp only [findSub] at h
    by_cases hp : needle.isPrefixOf []
    · rw [if_pos hp] at h; cases h
    · rw [if_neg hp] at h
      simpa using hp
  | cons c s' ih =>
    intro h j
    simp only [findSub] at h
    by_cases hp : needle.isPrefixOf (c :: s')
    · rw [if_pos hp] at h; cases h
    · rw [if_neg hp] at h
      have hn : findSub needle s' = none := Option.map_eq_none'.mp h
      cases j with
      | zero => simpa using hp
      | succ j' => simpa using ih hn j'

theorem strip_preserves_marker (v : List Char) :
    marker <+: pyStrip (marker ++ v) := by
  unfold pyStrip
  have hld : (marker ++ v).dropWhile isPySpace = marker ++ v := by
    rw [show marker ++ v = 'w' :: (("ith source").data ++ v) from rfl]
    simp [List.dropWhile_cons, show isPySpace 'w' = false from rfl]
  rw [hld, List.reverse_append, List.dropWhile_append]
  by_cases hv : (v.reverse.dropWhile isPySpace).isEmpty
  · rw [if_pos hv]
    have heq : marker.reverse.dropWhile isPySpace = marker.reverse := by decide
    rw [heq, List.reverse_reverse]
  · rw [if_neg hv, List.reverse_append, List.reverse_reverse]
    exact List.prefix_append marker _

/-! ### Specification of the generation loops -/

theorem genUsed_foldl (gen : List Char → List Char) (n : List Char) :
    ∀ (ts : List (List Char)) (acc : List (List Char × List Char) × List (List Char)),
      (ts.foldl
        (fun acc t =>
          match build_sql_query (gen t) with
          | some sql => (acc.1 ++ [(fileNameUsed n t, sql)], acc.2)
          | none => (acc.1, acc.2 ++ [t])) acc) =
      (acc.1 ++ ts.filterMap
         (fun t => (build_sql_query (gen t)).map (fun sql => (fileNameUsed n t, sql))),
       acc.2 ++ ts.filter (fun t => (build_sql_query (gen t)).isNone)) := by
  intro ts
  induction ts with
  | nil => intro acc; simp
  | cons t ts' ih =>
    intro acc
    cases hb : build_sql_query (gen t) with
    | some sql =>
      simp only [List.foldl_cons, hb]
      rw [ih]
      simp [hb, List.filterMap_cons, List.filter_cons]
    | none =>
      simp only [List.foldl_cons, hb]
      rw [ih]
      simp [hb, List.filterMap_cons, List.filter_cons]

theorem generate_used_eq (gen : List Char → List Char) (n : List Char)
    (ts : List (List Char)) :
    generate_sql_files_from_used_sources gen n ts =
      (ts.filterMap
         (fun t => (build_sql_query (gen t)).map (fun sql => (fileNameUsed n t, sql))),
       ts.filter (fun t => (build_sql_query (gen t)).isNone)) := by
  have := genUsed_foldl gen n ts ([], [])
  simpa [generate_sql_files_from_used_sources] using this

theorem genYml_foldl (gen : List Char → List Char) (n : List Char) :
    ∀ (ts : List (List Char)) (acc : List (List Char × List Char)),
      (ts.foldl
        (fun acc t =>
          match build_sql_query (gen t) with
          | some sql => acc ++ [(fileNameYml n t, sql)]
          | none => acc) acc) =
      acc ++ ts.filterMap
        (fun t => (build_sql_query (gen t)).map (fun sql => (fileNameYml n t, sql))) := by
  intro ts
  induction ts with
  | nil => intro acc; simp
  | cons t ts' ih =>
    intro acc
    cases hb : build_sql_query (gen t) with
    | some sql =>
      simp only [List.foldl_cons, hb]
      rw [ih]
      simp [hb, List.filterMap_cons]
    | none =>
      simp only [List.foldl_cons, hb]
      rw [ih]
      simp [hb, List.filterMap_cons]

theorem generate_yml_eq (gen : List Char → List Char) (doc : YDoc) (n : List Char) :
    generate_source_models_from_yml gen doc n =
      (ymlTables doc n).filterMap
        (fun t => (build_sql_query (gen t)).map (fun sql => (fileNameYml n t, sql))) := by
  have := genYml_foldl gen n (ymlTables doc n) []
  simpa [generate_source_models_from_yml] using this

theorem ymlTables_foldl (n : List Char) :
    ∀ (srcs : List YSource) (acc : List (List Char)),
      (srcs.foldl
        (fun acc src =>
          if src.name = n then acc ++ src.tables.map (·.name) else acc) acc) =
      acc ++ (srcs.filter (fun src => src.name = n)).flatMap
        (fun src => src.tables.map (·.name)) := by
  intro srcs
  induction srcs with
  | nil => intro acc; simp
  | cons src srcs' ih =>
    intro acc
    by_cases hs : src.name = n
    · simp only [List.foldl_cons, if_pos hs]
      rw [ih]
      simp [List.filter_cons, hs]
    · simp only [List.foldl_cons, if_neg hs]
      rw [ih]
      simp [List.filter_cons, hs]

theorem ymlTables_eq (doc : YDoc) (n : List Char) :
    ymlTables doc n =
      (doc.sources.filter (fun src => src.name = n)).flatMap
        (fun src => src.tables.map (·.name)) := by
  have := ymlTables_foldl n doc.sources []
  simpa [ymlTables] using this

/-! ### Walk lemma for the excluded subdirectory -/

theorem walkCollect_dropLast (fuel : Nat) :
    ∀ (pref : List String) (tr : FTree) (pth : List String) (c : List Char),
      (pth, c) ∈ walkCollect fuel pref tr →
      ∀ x ∈ pth.dropLast, x ∈ pref ∨ x ≠ "sources" := by
  induction fuel with
  | zero =>
    intro pref tr pth c h
    simp [walkCollect] at h
  | succ k ih =>
    intro pref tr pth c h
    cases tr with
    | node files dirs =>
      simp only [walkCollect, List.mem_append] at h
      rcases h with h | h
      · obtain ⟨f, hf, hsome⟩ := List.mem_filterMap.mp h
        by_cases he : ((".sql").data).isSuffixOf f.1.data
        · rw [if_pos he] at hsome
          have hpth : pth = pref ++ [f.1] := by
            injection hsome with h1
            exact (congrArg Prod.fst h1).symm
          intro x hx
          left
          rw [hpth, List.dropLast_concat] at hx
          exact hx
        · rw [if_neg he] at hsome
          cases hsome
      · obtain ⟨d, hd, hmem⟩ := List.mem_flatMap.mp h
        have hdname : d.1 ≠ "sources" := by
          have := (List.mem_filter.mp hd).2
          simpa using this
        intro x hx
        rcases ih (pref ++ [d.1]) d.2 pth c hmem x hx with hx' | hx'
        · rcases List.mem_append.mp hx' with h1 | h1
          · exact Or.inl h1
          · right
            have : x = d.1 := by simpa using h1
            rw [this]
            exact hdname
        · exact Or.inr hx'

/-! ### Captured groups are nonempty and quote free -/

theorem plusSplits_mem (pp : Char → Bool) (s : List Char)
    (pr : List Char × List Char) (h : pr ∈ plusSplits pp s) :
    pr.1 ≠ [] ∧ ∀ x ∈ pr.1, pp x = true := by
  unfold plusSplits at h
  obtain ⟨k, hk, hpr⟩ := List.mem_map.mp h
  have hk' : k < (s.takeWhile pp).length := by
    have := List.mem_reverse.mp hk
    simpa using this
  subst hpr
  constructor
  · show List.take (k + 1) (s.takeWhile pp) ≠ []
    intro hnil
    have := congrArg List.length hnil
    simp only [List.length_take, List.length_nil] at this
    omega
  · show ∀ x ∈ List.take (k + 1) (s.takeWhile pp), pp x = true
    intro x hx
    exact List.mem_takeWhile_imp (List.take_subset _ _ hx)

theorem matchSeq_caps (itAll : List RItem)
    (hgrp : ∀ pp, RItem.grp pp ∈ itAll → pp = notQuote)
    (hlit : ∀ ll, RItem.grpLit ll ∈ itAll → False) :
    ∀ s caps r, matchSeq itAll s = some (caps, r) →
      ∀ c ∈ caps, c ≠ [] ∧ ∀ x ∈ c, notQuote x = true := by
  induction itAll with
  | nil =>
    intro s caps r h c hc
    simp only [matchSeq, Option.some.injEq, Prod.mk.injEq] at h
    rw [← h.1] at hc
    simp at hc
  | cons i it ih =>
    have hgrp' : ∀ pp, RItem.grp pp ∈ it → pp = notQuote :=
      fun pp hpp => hgrp pp (List.mem_cons_of_mem i hpp)
    have hlit' : ∀ ll, RItem.grpLit ll ∈ it → False :=
      fun ll hll => hlit ll (List.mem_cons_of_mem i hll)
    intro s caps r h
    cases i with
    | lit l =>
      simp only [matchSeq] at h
      by_cases hp : l.isPrefixOf s
      · rw [if_pos hp] at h
        exact ih hgrp' hlit' _ caps r h
      · rw [if_neg hp] at h
        cases h
    | one pp =>
      cases s with
      | nil => simp [matchSeq] at h
      | cons c0 s' =>
        simp only [matchSeq] at h
        cases hpc : pp c0 with
        | true =>
          rw [hpc] at h
          simp only [if_true] at h
          exact ih hgrp' hlit' s' caps r h
        | false =>
          rw [hpc] at h
          simp at h
    | opt pp =>
      cases s with
      | nil =>
        simp only [matchSeq] at h
        exact ih hgrp' hlit' [] caps r h
      | cons c0 s' =>
        simp only [matchSeq] at h
        cases hpc : pp c0 with
        | true =>
          rw [hpc] at h
          simp only [if_true] at h
          cases hin : matchSeq it s' with
          | some v =>
            rw [hin] at h
            simp only [Option.some.injEq] at h
            exact ih hgrp' hlit' s' caps r (hin.trans (by rw [h]))
          | none =>
            rw [hin] at h
            exact ih hgrp' hlit' (c0 :: s') caps r h
        | false =>
          rw [hpc] at h
          simp only [Bool.false_eq_true, if_false] at h
          exact ih hgrp' hlit' (c0 :: s') caps r h
    | star pp =>
      simp only [matchSeq] at h
      obtain ⟨pr, _, hf⟩ := firstSome_eq_some _ _ _ h
      exact ih hgrp' hlit' pr.2 caps r hf
    | grp pp =>
      simp only [matchSeq] at h
      obtain ⟨pr, hpr, hf⟩ := firstSome_eq_some _ _ _ h
      obtain ⟨cr, hmv, heq⟩ := Option.map_eq_some'.mp hf
      have hpp : pp = notQuote := hgrp pp (List.mem_cons_self _ _)
      obtain ⟨hprne, hprall⟩ := plusSplits_mem pp s pr hpr
      intro c hc
      have hcaps : caps = pr.1 :: cr.1 := by
        have := congrArg Prod.fst heq
        simpa using this.symm
      rw [hcaps] at hc
      rcases List.mem_cons.mp hc with rfl | hc'
      · exact ⟨hprne, fun x hx => hpp ▸ hprall x hx⟩
      · have hr' : matchSeq it pr.2 = some (cr.1, cr.2) := hmv
        exact ih hgrp' hlit' pr.2 cr.1 cr.2 hr' c hc'
    | grpLit ll =>
      exact absurd (List.mem_cons_self (RItem.grpLit ll) it) (fun hm => hlit ll hm)

theorem findIterAux_matchSeq (items : List RItem) :
    ∀ fuel s m, m ∈ findIterAux items fuel s →
      ∃ u r, matchSeq items u = some (m.2, r) := by
  intro fuel
  induction fuel with
  | zero =>
    intro s m h
    simp [findIterAux] at h
  | succ k ih =>
    intro s m h
    cases hm : matchSeq items s with
    | some v =>
      obtain ⟨caps, r⟩ := v
      simp only [findIterAux, hm] at h
      by_cases hlt : r.length < s.length
      · rw [if_pos hlt] at h
        rcases List.mem_cons.mp h with rfl | h'
        · exact ⟨s, r, hm⟩
        · exact ih r m h'
      · rw [if_neg hlt] at h
        cases h
    | none =>
      simp only [findIterAux, hm] at h
      cases s with
      | nil => cases h
      | cons c s' => exact ih s' m h

theorem rwItems_grp (pp : Char → Bool) (h : RItem.grp pp ∈ rwItems) :
    pp = notQuote := by
  simp only [rwItems, List.mem_cons, List.not_mem_nil, or_false] at h
  rcases h with h | h | h | h | h | h | h | h | h | h | h | h |
    h | h | h | h | h | h | h | h | h | h | h
  all_goals first
    | exact (RItem.grp.injEq _ _ ▸ h)
    | simp at h

theorem rwItems_nolit (ll : List Char) (h : RItem.grpLit ll ∈ rwItems) : False := by
  simp [rwItems] at h

theorem mem_srcCallPlain (c : Char) (n t q : List Char) (h : c ∈ srcCallPlain n t q) :
    c ∈ (['s', 'o', 'u', 'r', 'c', 'e', '(', '\'', ',', ')'] : List Char) ∨
      c ∈ n ∨ c ∈ t ∨ c ∈ q := by
  simp only [srcCallPlain, List.mem_cons, List.mem_append] at h
  simp only [List.mem_cons, List.not_mem_nil, or_false]
  tauto

/-!
## The claims
-/

/-- C1: for every file, every occurrence of a templated expression of the
form two braces, source, two leniently quoted arguments, two braces is
replaced by the corresponding templated ref expression with the arguments
substituted literally.  Stated as: (1) in a file consisting of an
occurrence between brace-free context, the occurrence is rewritten in
place; (2) the round-trip input of the spec yields exactly its ref form;
(3) three occurrences in one file, quoted differently, with one
(source, table) pair appearing twice, are each rewritten to their
respective ref forms; (4) whitespace and an embedded newline inside the
expression are accepted. -/
theorem C1_rewriter_rewrites_occurrences :
    (∀ p q a b : List Char,
      (∀ c ∈ p, c ≠ lbr) → (∀ c ∈ q, c ≠ lbr) →
      (∀ c ∈ a, notQuote c = true) → a ≠ [] →
      (∀ c ∈ b, notQuote c = true) → b ≠ [] →
      replace_sources_with_refs (p ++ (srcExpr a b ++ q)) = p ++ (newRef a b ++ q))
    ∧ replace_sources_with_refs
        (("SELECT * FROM \x7b\x7b source('sup','clicks') \x7d\x7d").data)
        = ("SELECT * FROM \x7b\x7b ref('source_sup__clicks') \x7d\x7d").data
    ∧ replace_sources_with_refs
        (("a \x7b\x7b source('s','t1') \x7d\x7d b \x7b\x7b source(\"s\", \"t2\") \x7d\x7d c \x7b\x7b source('s','t1') \x7d\x7d").data)
        = ("a \x7b\x7b ref('source_s__t1') \x7d\x7d b \x7b\x7b ref('source_s__t2') \x7d\x7d c \x7b\x7b ref('source_s__t1') \x7d\x7d").data
    ∧ replace_sources_with_refs (("x \x7b\x7b source( 's' ,\n \"t\" ) \x7d\x7d y").data)
        = ("x \x7b\x7b ref('source_s__t') \x7d\x7d y").data :=
  ⟨fun p q a b hp hq ha ha0 hb hb0 => rewrite_single p q a b hp hq ha ha0 hb hb0,
   by rfl, by rfl, by rfl⟩

/-- Witness for C1: the round-trip input, presented as a brace-free
prefix followed by a canonical occurrence. -/
theorem C1_rewriter_rewrites_occurrences_witness :
    replace_sources_with_refs
        ((("SELECT * FROM ").data) ++ (srcExpr (("sup").data) (("clicks").data) ++ [])) =
      (("SELECT * FROM ").data) ++ (newRef (("sup").data) (("clicks").data) ++ []) :=
  C1_rewriter_rewrites_occurrences.1 _ _ _ _ (by decide) (by decide) (by decide)
    (by decide) (by decide) (by decide)

/-- C2: a file containing a source call with any mix of quote characters
and internal whitespace is classified under its table for the target
source, and a call whose first argument differs from the target source
name produces no entry.  Stated as: (1) the scanner finds the table of a
leniently formatted call in context; (2) a classified table yields an
index entry for its file; (3) a call with a different first argument
(neither name a prefix of the other) yields no table, in a context free
of further candidate matches; (4-6) concrete quote-mix and
differing-name instances, including prefix-overlapping names. -/
theorem C2_scanner_classifies_source_calls :
    (∀ p w1 w2 w3 w4 w5 : List Char, ∀ q1 q2 q3 q4 : Char, ∀ n t q : List Char,
      (∀ c ∈ p, c ≠ 's') →
      (∀ c ∈ w1, isPySpace c = true) → (∀ c ∈ w2, isPySpace c = true) →
      (∀ c ∈ w3, isPySpace c = true) → (∀ c ∈ w4, isPySpace c = true) →
      (∀ c ∈ w5, isPySpace c = true) →
      isQuote q1 = true → isQuote q2 = true → isQuote q3 = true → isQuote q4 = true →
      (∀ c ∈ t, notQuote c = true) → t ≠ [] →
      t ∈ usedTables n (p ++ srcCall w1 w2 q1 n q2 w3 w4 q3 t q4 w5 q))
    ∧ (∀ (files : List (List String × List Char)) pth c n t,
        (pth, c) ∈ files → t ∈ usedTables n c →
        (t, pth) ∈ usedSourcesIndex n files)
    ∧ (∀ p n s2 t q : List Char,
        (∀ c ∈ p, c ≠ 's') → (∀ c ∈ q, c ≠ 's') →
        (∀ c ∈ s2, c ≠ 's') → (∀ c ∈ t, c ≠ 's') →
        ¬ n <+: s2 → (∀ c ∈ n, notQuote c = true) →
        usedTables n (p ++ srcCallPlain s2 t q) = [])
    ∧ usedTables (("sup").data)
        (("SELECT * FROM source ( \"sup\" , 'clicks' )").data) = [("clicks").data]
    ∧ usedTables (("sup").data)
        (("SELECT * FROM source('supx','clicks')").data) = []
    ∧ usedTables (("sup").data)
        (("SELECT * FROM source('su','clicks')").data) = [] := by
  refine ⟨?_, ?_, ?_, by rfl, by rfl, by rfl⟩
  · intro p w1 w2 w3 w4 w5 q1 q2 q3 q4 n t q hp hw1 hw2 hw3 hw4 hw5 hq1 hq2 hq3 hq4 ht ht0
    exact scan_pos p w1 w2 q1 n q2 w3 w4 q3 t q4 w5 q hp hw1 hw2 hw3 hw4 hw5
      hq1 hq2 hq3 hq4 ht ht0
  · intro files pth c n t hfile htbl
    exact List.mem_flatMap.mpr ⟨(pth, c), hfile, List.mem_map.mpr ⟨t, htbl, rfl⟩⟩
  · intro p n s2 t q hp hq hs2 ht hne hnq
    unfold usedTables
    rw [scan_neg p n s2 t q hp hq hs2 ht hne hnq]
    rfl

/-- Witness for C2: a file with a canonically quoted call is classified
under its table. -/
theorem C2_scanner_classifies_source_calls_witness :
    ("clicks").data ∈ usedTables (("sup").data)
      ((("SELECT * FROM ").data) ++ srcCall [] [] '\'' (("sup").data) '\''
        [] [] '\'' (("clicks").data) '\'' [] []) :=
  C2_scanner_classifies_source_calls.1 (("SELECT * FROM ").data)
    [] [] [] [] [] '\'' '\'' '\'' '\'' (("sup").data) (("clicks").data) []
    (by decide) (by decide) (by decide) (by decide) (by decide) (by decide)
    (by decide) (by decide) (by decide) (by decide) (by decide) (by decide)

/-- C3: when the marker token occurs in the captured stdout, the
generator returns the stripped substring starting at the first
occurrence (which therefore still starts with the marker); when the
marker does not occur, it returns nothing. -/
theorem C3_generator_extracts_from_marker :
    (∀ (out : List Char) (i : Nat), findSub marker out = some i →
      build_sql_query out = some (pyStrip (out.drop i)) ∧
      marker <+: out.drop i ∧
      (∀ j, j < i → ¬ marker <+: out.drop j) ∧
      marker <+: pyStrip (out.drop i))
    ∧ (∀ out : List Char, (∀ j, ¬ marker <+: out.drop j) →
        build_sql_query out = none) := by
  constructor
  · intro out i h
    obtain ⟨h1, h2⟩ := findSub_some marker out i h
    refine ⟨by simp [build_sql_query, h], h1, h2, ?_⟩
    obtain ⟨v, hv⟩ := h1
    rw [← hv]
    exact strip_preserves_marker v
  · intro out hno
    cases hf : findSub marker out with
    | some i =>
      obtain ⟨h1, _⟩ := findSub_some marker out i hf
      exact absurd h1 (hno i)
    | none => simp [build_sql_query, hf]

/-- Witness for C3: a concrete stdout with noise before the marker. -/
theorem C3_generator_extracts_from_marker_witness :
    build_sql_query (("xy with source as (select 1)  ").data) =
      some (pyStrip ((("xy with source as (select 1)  ").data).drop 3)) ∧
    marker <+: (("xy with source as (select 1)  ").data).drop 3 ∧
    (∀ j, j < 3 → ¬ marker <+: (("xy with source as (select 1)  ").data).drop j) ∧
    marker <+: pyStrip ((("xy with source as (select 1)  ").data).drop 3) :=
  C3_generator_extracts_from_marker.1 (("xy with source as (select 1)  ").data) 3
    (by rfl)

/-- C4: the Rewriter writes back exactly the files selected by its
source-pattern search, so a file with no match of that pattern is left
byte-identical; and a file holding only rewritten ref expressions
matches neither the search pattern nor the rewrite pattern, so a second
pass leaves it byte-identical.  Stated as: (1) every written file comes
from a selected file; (2) ref-form content in brace-free context is not
selected and is left unchanged by the rewrite transformation; (3-4)
concrete ref-only file instances; (5) a run over a ref-only file writes
nothing. -/
theorem C4_rewriter_untouched_and_idempotent :
    (∀ (files : List (String × List Char)) m, m ∈ rewriterRun files →
      ∃ f, f ∈ files ∧ f.1 = m.1 ∧
        (((".sql").data).isSuffixOf f.1.data && hasSourceRef f.2) = true ∧
        m.2 = replace_sources_with_refs f.2)
    ∧ (∀ p q a b : List Char,
        (∀ c ∈ p, c ≠ lbr) → (∀ c ∈ q, c ≠ lbr) →
        (∀ c ∈ a, c ≠ lbr) → (∀ c ∈ b, c ≠ lbr) →
        hasSourceRef (p ++ (newRef a b ++ q)) = false ∧
        replace_sources_with_refs (p ++ (newRef a b ++ q)) = p ++ (newRef a b ++ q))
    ∧ hasSourceRef (("SELECT * FROM \x7b\x7b ref('source_sup__clicks') \x7d\x7d").data)
        = false
    ∧ replace_sources_with_refs
        (("SELECT * FROM \x7b\x7b ref('source_sup__clicks') \x7d\x7d").data)
        = ("SELECT * FROM \x7b\x7b ref('source_sup__clicks') \x7d\x7d").data
    ∧ rewriterRun [("a.sql", ("SELECT * FROM ref(x)").data)] = [] := by
  refine ⟨?_, ?_, by rfl, by rfl, by rfl⟩
  · intro files m hm
    obtain ⟨f, hf, hfm⟩ := List.mem_map.mp hm
    have h1 := List.mem_filter.mp hf
    refine ⟨f, h1.1, ?_, by simpa using h1.2, ?_⟩
    · rw [← hfm]
    · rw [← hfm]
  · intro p q a b hp hq ha hb
    constructor
    · exact search_false_on_ref _ p q a b hp hq ha hb
    · exact rewrite_id _ (findIterL_eq_nil_of_search _ _
        (search_false_on_ref _ p q a b hp hq ha hb))

/-- Witness for C4: ref-form content in context is not selected and is
unchanged. -/
theorem C4_rewriter_untouched_and_idempotent_witness :
    hasSourceRef ((("x ").data) ++ (newRef (("a").data) (("b").data) ++ ((" y").data)))
        = false ∧
    replace_sources_with_refs
        ((("x ").data) ++ (newRef (("a").data) (("b").data) ++ ((" y").data))) =
      (("x ").data) ++ (newRef (("a").data) (("b").data) ++ ((" y").data)) :=
  C4_rewriter_untouched_and_idempotent.2.1 _ _ _ _ (by decide) (by decide)
    (by decide) (by decide)

/-- C5: in a batch over several tables, a table whose stdout lacks the
marker is skipped: no file is produced for it, a warning naming it is
recorded, and every other table is generated exactly as if the failing
table were absent. -/
theorem C5_marker_absence_skips_only_that_table :
    ∀ (gen : List Char → List Char) (n : List Char)
      (ts1 ts2 : List (List Char)) (t : List Char),
      findSub marker (gen t) = none →
      (generate_sql_files_from_used_sources gen n (ts1 ++ t :: ts2)).1 =
        (generate_sql_files_from_used_sources gen n ts1).1 ++
          (generate_sql_files_from_used_sources gen n ts2).1 ∧
      t ∈ (generate_sql_files_from_used_sources gen n (ts1 ++ t :: ts2)).2 ∧
      (∀ t' sql, t' ∈ ts1 ++ ts2 → build_sql_query (gen t') = some sql →
        (fileNameUsed n t', sql) ∈
          (generate_sql_files_from_used_sources gen n (ts1 ++ t :: ts2)).1) := by
  intro gen n ts1 ts2 t h
  have hnone : build_sql_query (gen t) = none := by simp [build_sql_query, h]
  refine ⟨?_, ?_, ?_⟩
  · rw [generate_used_eq, generate_used_eq, generate_used_eq]
    simp [List.filterMap_append, List.filterMap_cons, hnone]
  · rw [generate_used_eq]
    refine List.mem_filter.mpr ⟨?_, by simp [hnone]⟩
    exact List.mem_append.mpr (Or.inr (List.mem_cons_self t ts2))
  · intro t' sql ht' hsql
    rw [generate_used_eq]
    refine List.mem_filterMap.mpr ⟨t', ?_, by simp [hsql]⟩
    rcases List.mem_append.mp ht' with h1 | h1
    · exact List.mem_append.mpr (Or.inl h1)
    · exact List.mem_append.mpr (Or.inr (List.mem_cons_of_mem t h1))

/-- Witness for C5: a three-table batch whose middle table has no marker
in its stdout. -/
theorem C5_marker_absence_skips_only_that_table_witness :
    (generate_sql_files_from_used_sources
        (fun s => if s = ("bad").data then ("no marker here").data
                  else ("with source as (select 1)").data)
        (("sup").data) ([("t1").data] ++ ("bad").data :: [("t2").data])).1 =
      (generate_sql_files_from_used_sources
        (fun s => if s = ("bad").data then ("no marker here").data
                  else ("with source as (select 1)").data)
        (("sup").data) [("t1").data]).1 ++
      (generate_sql_files_from_used_sources
        (fun s => if s = ("bad").data then ("no marker here").data
                  else ("with source as (select 1)").data)
        (("sup").data) [("t2").data]).1 ∧
    ("bad").data ∈ (generate_sql_files_from_used_sources
        (fun s => if s = ("bad").data then ("no marker here").data
                  else ("with source as (select 1)").data)
        (("sup").data) ([("t1").data] ++ ("bad").data :: [("t2").data])).2 ∧
    (∀ t' sql, t' ∈ [("t1").data] ++ [("t2").data] →
      build_sql_query ((fun s => if s = ("bad").data then ("no marker here").data
          else ("with source as (select 1)").data) t') = some sql →
      (fileNameUsed (("sup").data) t', sql) ∈
        (generate_sql_files_from_used_sources
          (fun s => if s = ("bad").data then ("no marker here").data
                    else ("with source as (select 1)").data)
          (("sup").data) ([("t1").data] ++ ("bad").data :: [("t2").data])).1) :=
  C5_marker_absence_skips_only_that_table _ _ [("t1").data] [("t2").data]
    (("bad").data) (by rfl)

/-- C6: the definition-document enumerator yields exactly the table
names declared under the requested source name, in declared order, and
the empty list when the source name is absent from the document. -/
theorem C6_yml_enumerator_ordered_tables :
    ∀ (doc : YDoc) (n : List Char),
      ((∀ src ∈ doc.sources, src.name ≠ n) → ymlTables doc n = [])
      ∧ (∀ l1 src l2, doc.sources = l1 ++ src :: l2 → src.name = n →
          (∀ s ∈ l1, s.name ≠ n) → (∀ s ∈ l2, s.name ≠ n) →
          ymlTables doc n = src.tables.map (·.name)) := by
  intro doc n
  constructor
  · intro habs
    rw [ymlTables_eq]
    have : doc.sources.filter (fun src => src.name = n) = [] := by
      rw [List.filter_eq_nil_iff]
      intro src hsrc
      simp [habs src hsrc]
    rw [this]
    rfl
  · intro l1 src l2 hdoc hname h1 h2
    rw [ymlTables_eq, hdoc]
    have hf1 : l1.filter (fun s => s.name = n) = [] := by
      rw [List.filter_eq_nil_iff]
      intro s hs
      simp [h1 s hs]
    have hf2 : l2.filter (fun s => s.name = n) = [] := by
      rw [List.filter_eq_nil_iff]
      intro s hs
      simp [h2 s hs]
    rw [List.filter_append, hf1, List.filter_cons, if_pos (by simp [hname]), hf2]
    simp

/-- Witness for C6: a two-source document queried for its second
source. -/
theorem C6_yml_enumerator_ordered_tables_witness :
    ymlTables (YDoc.mk [YSource.mk (("a").data) [YTable.mk (("t1").data)],
        YSource.mk (("b").data) [YTable.mk (("t2").data), YTable.mk (("t3").data)]])
      (("b").data) =
      [YTable.mk (("t2").data), YTable.mk (("t3").data)].map (·.name) :=
  ((C6_yml_enumerator_ordered_tables
      (YDoc.mk [YSource.mk (("a").data) [YTable.mk (("t1").data)],
        YSource.mk (("b").data) [YTable.mk (("t2").data), YTable.mk (("t3").data)]])
      (("b").data)).2
    [YSource.mk (("a").data) [YTable.mk (("t1").data)]]
    (YSource.mk (("b").data) [YTable.mk (("t2").data), YTable.mk (("t3").data)])
    [] (by rfl) (by rfl) (by decide) (by decide))

/-- C7: no file path in the scanner result lies under a directory
component named sources, whatever the tree contents: the walk removes
that subdirectory at every level before traversing. -/
theorem C7_scanner_excludes_sources_subdir :
    ∀ (fuel : Nat) (tree : FTree) (n t : List Char) (pth : List String),
      (t, pth) ∈ get_sources_used_with_source_func fuel tree n →
      "sources" ∉ pth.dropLast := by
  intro fuel tree n t pth h
  unfold get_sources_used_with_source_func usedSourcesIndex at h
  obtain ⟨f, hf, hmap⟩ := List.mem_flatMap.mp h
  obtain ⟨t', _, heq⟩ := List.mem_map.mp hmap
  have hpth : f.1 = pth := congrArg Prod.snd heq
  intro hmem
  rcases walkCollect_dropLast fuel [] tree f.1 f.2 hf "sources"
      (hpth ▸ hmem) with h1 | h1
  · simp at h1
  · exact h1 rfl

/-- Witness for C7: a tree whose sources subdirectory holds a matching
file; the only result path is the root file. -/
theorem C7_scanner_excludes_sources_subdir_witness :
    ("sources" ∉ (["m.sql"] : List String).dropLast) :=
  C7_scanner_excludes_sources_subdir 2
    (FTree.node [("m.sql", ("select source('sup','clicks')").data)]
      [("sources", FTree.node [("gen.sql", ("select source('sup','clicks')").data)] [])])
    (("sup").data) (("clicks").data) ["m.sql"] (by decide)

/-- C8: the emitted file name is the same pure function of the
(source, table) pair in both pipelines, equal to source underscore name
double underscore table dot sql, and every file either pipeline emits
carries that name for one of its tables. -/
theorem C8_file_naming_deterministic :
    (∀ s t : List Char, fileNameUsed s t = fileNameYml s t)
    ∧ (∀ s t : List Char, fileNameUsed s t =
        ("source_").data ++ s ++ ("__").data ++ t ++ ((".sql").data))
    ∧ fileNameUsed (("sup").data) (("orders").data) = ("source_sup__orders.sql").data
    ∧ (∀ (gen : List Char → List Char) (n : List Char) (ts : List (List Char)) pr,
        pr ∈ (generate_sql_files_from_used_sources gen n ts).1 →
        ∃ t ∈ ts, pr.1 = fileNameUsed n t)
    ∧ (∀ (gen : List Char → List Char) (doc : YDoc) (n : List Char) pr,
        pr ∈ generate_source_models_from_yml gen doc n →
        ∃ t ∈ ymlTables doc n, pr.1 = fileNameYml n t) := by
  refine ⟨fun s t => rfl, fun s t => rfl, by rfl, ?_, ?_⟩
  · intro gen n ts pr hpr
    rw [generate_used_eq] at hpr
    obtain ⟨t, ht, hsome⟩ := List.mem_filterMap.mp hpr
    cases hb : build_sql_query (gen t) with
    | some sql =>
      rw [hb] at hsome
      simp only [Option.map_some', Option.some.injEq] at hsome
      exact ⟨t, ht, by rw [← hsome]⟩
    | none =>
      rw [hb] at hsome
      simp at hsome
  · intro gen doc n pr hpr
    rw [generate_yml_eq] at hpr
    obtain ⟨t, ht, hsome⟩ := List.mem_filterMap.mp hpr
    cases hb : build_sql_query (gen t) with
    | some sql =>
      rw [hb] at hsome
      simp only [Option.map_some', Option.some.injEq] at hsome
      exact ⟨t, ht, by rw [← hsome]⟩
    | none =>
      rw [hb] at hsome
      simp at hsome

/-- Witness for C8: a one-table used-sources run emits a file named by
the convention. -/
theorem C8_file_naming_deterministic_witness :
    ∃ t ∈ [("orders").data],
      (fileNameUsed (("sup").data) (("orders").data),
        ("with source s").data).1 = fileNameUsed (("sup").data) t :=
  C8_file_naming_deterministic.2.2.2.1 (fun _ => ("with source s").data)
    (("sup").data) [("orders").data]
    (fileNameUsed (("sup").data) (("orders").data), ("with source s").data)
    (by decide)

/-- C9: a source call not wrapped in double braces is left
byte-for-byte unchanged by the Rewriter (its file is not even selected),
while the Scanner counts that same occurrence under its table. -/
theorem C9_rewriter_only_templated_calls :
    ∀ p n t q : List Char,
      (∀ c ∈ p, c ≠ 's') → (∀ c ∈ p, c ≠ lbr) → (∀ c ∈ q, c ≠ lbr) →
      (∀ c ∈ n, c ≠ lbr) → (∀ c ∈ t, c ≠ lbr) →
      (∀ c ∈ t, notQuote c = true) → t ≠ [] →
      hasSourceRef (p ++ srcCallPlain n t q) = false ∧
      replace_sources_with_refs (p ++ srcCallPlain n t q) = p ++ srcCallPlain n t q ∧
      t ∈ usedTables n (p ++ srcCallPlain n t q) := by
  intro p n t q hps hp hq hn ht htq ht0
  have hall : ∀ c ∈ p ++ srcCallPlain n t q, c ≠ lbr := by
    intro c hc
    rcases List.mem_append.mp hc with h | h
    · exact hp c h
    · rcases mem_srcCallPlain c n t q h with h1 | h1 | h1 | h1
      · exact (by decide : ∀ x ∈ (['s', 'o', 'u', 'r', 'c', 'e', '(', '\'', ',',
          ')'] : List Char), x ≠ lbr) c h1
      · exact hn c h1
      · exact ht c h1
      · exact hq c h1
  refine ⟨?_, ?_, ?_⟩
  · exact litHead_search_false lbr [lbr] _ _ hall
  · exact rewrite_id _ (litHead_findIterL_nil lbr [lbr] _ _ hall)
  · exact scan_pos p [] [] '\'' n '\'' [] [] '\'' t '\'' [] q hps
      (by decide) (by decide) (by decide) (by decide) (by decide)
      (by decide) (by decide) (by decide) (by decide) htq ht0

/-- Witness for C9: an undelimited call after an uppercase prefix. -/
theorem C9_rewriter_only_templated_calls_witness :
    hasSourceRef ((("SELECT * FROM ").data) ++
        srcCallPlain (("sup").data) (("clicks").data) []) = false ∧
    replace_sources_with_refs ((("SELECT * FROM ").data) ++
        srcCallPlain (("sup").data) (("clicks").data) []) =
      (("SELECT * FROM ").data) ++ srcCallPlain (("sup").data) (("clicks").data) [] ∧
    ("clicks").data ∈ usedTables (("sup").data)
      ((("SELECT * FROM ").data) ++ srcCallPlain (("sup").data) (("clicks").data) []) :=
  C9_rewriter_only_templated_calls _ _ _ _ (by decide) (by decide) (by decide)
    (by decide) (by decide) (by decide) (by decide)

/-- C10: every match processed by the Rewriter has nonempty quote-free
captured groups, so the replacement is exactly the ref expression whose
only quote characters are the two single quotes delimiting its
argument. -/
theorem C10_rewriter_captures_wellformed :
    ∀ (content g0 a b : List Char), (g0, a, b) ∈ rewriteMatches content →
      a ≠ [] ∧ b ≠ [] ∧
      (∀ c ∈ a, notQuote c = true) ∧ (∀ c ∈ b, notQuote c = true) ∧
      newRef a b = [lbr, lbr] ++ ((" ref('source_").data) ++ a ++ (("__").data) ++ b ++
        (("') ").data) ++ [rbr, rbr] ∧
      (newRef a b).count '\'' = 2 ∧ (newRef a b).count '"' = 0 := by
  intro content g0 a b hmem
  obtain ⟨m, hm, hsome⟩ := List.mem_filterMap.mp hmem
  obtain ⟨mg, caps⟩ := m
  cases caps with
  | nil => simp at hsome
  | cons a' caps2 =>
    cases caps2 with
    | nil => simp at hsome
    | cons b' caps3 =>
      cases caps3 with
      | cons x caps4 => simp at hsome
      | nil =>
        simp only [Option.some.injEq, Prod.mk.injEq] at hsome
        obtain ⟨hg, ha', hb'⟩ := hsome
        rw [ha', hb'] at hm
        obtain ⟨u, r, hms⟩ :=
          findIterAux_matchSeq rwItems content.length content (mg, [a, b]) hm
        have hcaps := matchSeq_caps rwItems rwItems_grp rwItems_nolit u [a, b] r hms
        have hA := hcaps a (List.mem_cons_self a [b])
        have hB := hcaps b (List.mem_cons_of_mem a (List.mem_cons_self b []))
        have hqa : '\'' ∉ a := fun hx => by
          have := hA.2 '\'' hx
          simp [notQuote, isQuote] at this
        have hqb : '\'' ∉ b := fun hx => by
          have := hB.2 '\'' hx
          simp [notQuote, isQuote] at this
        have hda : '"' ∉ a := fun hx => by
          have := hA.2 '"' hx
          simp [notQuote, isQuote] at this
        have hdb : '"' ∉ b := fun hx => by
          have := hB.2 '"' hx
          simp [notQuote, isQuote] at this
        refine ⟨hA.1, hB.1, hA.2, hB.2, rfl, ?_, ?_⟩
        · simp only [newRef, List.count_append]
          rw [List.count_eq_zero.mpr hqa, List.count_eq_zero.mpr hqb]
          rfl
        · simp only [newRef, List.count_append]
          rw [List.count_eq_zero.mpr hda, List.count_eq_zero.mpr hdb]
          rfl

/-- Witness for C10: the match of a concrete templated call. -/
theorem C10_rewriter_captures_wellformed_witness :
    ("aa").data ≠ [] ∧ ("bb").data ≠ [] ∧
    (∀ c ∈ ("aa").data, notQuote c = true) ∧ (∀ c ∈ ("bb").data, notQuote c = true) ∧
    newRef (("aa").data) (("bb").data) =
      [lbr, lbr] ++ ((" ref('source_").data) ++ ("aa").data ++ (("__").data) ++
        ("bb").data ++ (("') ").data) ++ [rbr, rbr] ∧
    (newRef (("aa").data) (("bb").data)).count '\'' = 2 ∧
    (newRef (("aa").data) (("bb").data)).count '"' = 0 :=
  C10_rewriter_captures_wellformed (("\x7b\x7b source('aa','bb') \x7d\x7d").data)
    (("\x7b\x7b source('aa','bb') \x7d\x7d").data) (("aa").data) (("bb").data)
    (by decide)

end DbT
